import Mathlib

/-!
Verification of the complex-function compiler backend of
`calculator-backends.js` (`compileToComplexFunction`): value table with
interning (CSE), algebraic simplifier, lowering of complex arithmetic to
scalar operations, and JS code emission.

Modelling conventions:
* JavaScript floating-point numbers are modelled as exact rationals
  (`ℚ`); the spec's round-trip property is stated "to floating-point
  tolerance", which this abstraction realises as exact equality.
  In particular `Number(String(x)) === x` in JS becomes the exact
  round-trip `numVal (jsString q) = q`.
* The mutable `values` array is threaded explicitly as a `List Value`.
* JS exceptions become `Except` values; the `SyntaxError` thrown by
  `lower` with message `"undefined variable: " + id` is modelled by the
  constructor `CompileError.undefinedVariable id`.
-/

namespace Calc

/-- Operator of a binary IR value: one of the source strings
`"+" "-" "*" "/"`. -/
inductive Op : Type
| add
| sub
| mul
| div
deriving DecidableEq, Repr

/-- Textual form of an operator, as it appears in `node.type` and in the
emitted code. -/
def opStr : Op → String
| .add => "+"
| .sub => "-"
| .mul => "*"
| .div => "/"

/-- AST node of the calculator parser: `{type: "number", value}`,
`{type: "name", id}`, or `{type: op, left, right}`. -/
inductive Expr : Type
| number (value : String)
| name (id : String)
| binop (op : Op) (left right : Expr)
deriving DecidableEq, Repr

/-- IR value: `{type: "arg", arg0}`, `{type: "number", arg0}`, or
`{type: op, arg0, arg1}` with the two operand indices into `values`. -/
inductive Value : Type
| arg (name : String)
| number (text : String)
| binop (op : Op) (arg0 arg1 : Nat)
deriving DecidableEq, Repr

/-- Source `valuesEqual(n1, n2)`: field-by-field comparison of
`type`, `arg0` and `arg1`. -/
def valuesEqual : Value → Value → Bool
| .arg s1, .arg s2 => s1 == s2
| .number s1, .number s2 => s1 == s2
| .binop o1 a1 b1, .binop o2 a2 b2 => o1 == o2 && a1 == a2 && b1 == b2
| _, _ => false

theorem valuesEqual_iff (v w : Value) : valuesEqual v w = true ↔ v = w := by
  cases v <;> cases w <;> simp [valuesEqual, and_assoc]

/-! ### Decimal strings

JS converts between numbers and their textual forms with `Number(s)` and
`String(x)`. Under the exact-rational abstraction we model these by
`numVal` and `jsString`; the only fact the compiler relies on is the JS
round-trip `Number(String(x)) === x`, realised below as
`numVal_jsString`. -/

/-- Numeric value of a decimal digit character. -/
def charToDigit (c : Char) : Nat := c.toNat - 48

/-- Parse a string of decimal digits, most significant first. -/
def strToNatAux (cs : List Char) : Nat :=
  cs.foldl (fun a c => 10 * a + charToDigit c) 0

/-- Decimal digits of `n`, most significant first (`fuel` bounds the
recursion depth). -/
def natToStrAux : Nat → Nat → List Char
| 0, _ => []
| fuel + 1, n =>
    if n < 10 then [Nat.digitChar n]
    else natToStrAux fuel (n / 10) ++ [Nat.digitChar (n % 10)]

/-- Decimal representation of a natural number. -/
def natToStr (n : Nat) : String := ⟨natToStrAux (n + 1) n⟩

/-- Decimal representation of an integer (JS `String` of an integral
number). -/
def intStr : Int → String
| .ofNat n => natToStr n
| .negSucc n => "-" ++ natToStr (n + 1)

/-- The ten decimal digit characters. -/
def digitChars : List Char := ['0', '1', '2', '3', '4', '5', '6', '7', '8', '9']

theorem digitChar_mem {d : Nat} (h : d < 10) : Nat.digitChar d ∈ digitChars := by
  interval_cases d <;> decide

theorem charToDigit_digitChar {d : Nat} (h : d < 10) :
    charToDigit (Nat.digitChar d) = d := by
  interval_cases d <;> decide

theorem mem_natToStrAux {c : Char} :
    ∀ fuel n, c ∈ natToStrAux fuel n → c ∈ digitChars := by
  intro fuel
  induction fuel with
  | zero => intro n h; simp [natToStrAux] at h
  | succ fuel ih =>
      intro n h
      by_cases hn : n < 10
      · simp [natToStrAux, hn] at h
        exact h ▸ digitChar_mem hn
      · simp [natToStrAux, hn, List.mem_append] at h
        rcases h with h | h
        · exact ih _ h
        · exact h ▸ digitChar_mem (Nat.mod_lt _ (by norm_num))

theorem strToNatAux_append_singleton (cs : List Char) (c : Char) :
    strToNatAux (cs ++ [c]) = 10 * strToNatAux cs + charToDigit c := by
  simp [strToNatAux, List.foldl_append]

theorem strToNat_natToStrAux :
    ∀ fuel n, n < 10 ^ fuel → strToNatAux (natToStrAux fuel n) = n := by
  intro fuel
  induction fuel with
  | zero =>
      intro n h
      interval_cases n
      simp [natToStrAux, strToNatAux]
  | succ fuel ih =>
      intro n h
      by_cases hn : n < 10
      · simp [natToStrAux, hn, strToNatAux, charToDigit_digitChar hn]
      · have hdiv : n / 10 < 10 ^ fuel := by
          rw [Nat.div_lt_iff_lt_mul (by norm_num)]
          calc n < 10 ^ (fuel + 1) := h
            _ = 10 ^ fuel * 10 := by ring
        rw [natToStrAux, if_neg hn, strToNatAux_append_singleton, ih _ hdiv,
          charToDigit_digitChar (Nat.mod_lt _ (by norm_num))]
        exact Nat.div_add_mod n 10

theorem strToNat_natToStr (n : Nat) : strToNatAux (natToStr n).data = n := by
  have hfuel : n < 10 ^ (n + 1) :=
    lt_of_lt_of_le (Nat.lt_pow_self (by norm_num) n)
      (Nat.pow_le_pow_right (by norm_num) (Nat.le_succ n))
  exact strToNat_natToStrAux (n + 1) n hfuel

theorem mem_natToStr {c : Char} {n : Nat} (h : c ∈ (natToStr n).data) :
    c ∈ digitChars := mem_natToStrAux (n + 1) n h

/-- Predicate used to split a numeral at a `'.'` or `'/'` separator. -/
def notSep (c : Char) : Bool := c != '.' && c != '/'

/-- Value of an unsigned numeral: plain digits, a decimal fraction
`ip.frac`, or an exact quotient `ip/den` (the form `jsString` uses for a
non-integral rational under the exact-arithmetic abstraction). -/
def numValPos (cs : List Char) : ℚ :=
  match cs.dropWhile notSep with
  | [] => (strToNatAux (cs.takeWhile notSep) : ℚ)
  | sep :: rest =>
      if sep = '.' then
        (strToNatAux (cs.takeWhile notSep) : ℚ) + (strToNatAux rest : ℚ) / (10 : ℚ) ^ rest.length
      else
        (strToNatAux (cs.takeWhile notSep) : ℚ) / (strToNatAux rest : ℚ)

/-- Strip an optional leading minus sign off a numeral. -/
def numValChars : List Char → ℚ
| [] => numValPos []
| c :: rest => if c = '-' then -(numValPos rest) else numValPos (c :: rest)

/-- Model of JS `Number(s)` on the numeral strings this compiler
handles: an optional leading minus sign, then an unsigned numeral. -/
def numVal (s : String) : ℚ := numValChars s.data

/-- Model of JS `String(x)` for the result of an arithmetic operation:
an exact decimal for integers, and an exact `num/den` form otherwise
(JS prints a decimal that re-parses to the same floating-point value;
exactness of the round trip is the abstracted contract). -/
def jsString (q : ℚ) : String :=
  if q.den = 1 then intStr q.num
  else intStr q.num ++ "/" ++ natToStr q.den

theorem digit_notSep {c : Char} (h : c ∈ digitChars) : notSep c = true := by
  fin_cases h <;> decide

theorem digit_ne_minus {c : Char} (h : c ∈ digitChars) : c ≠ '-' := by
  fin_cases h <;> decide

theorem takeWhile_all {p : Char → Bool} :
    ∀ cs : List Char, (∀ c ∈ cs, p c = true) → cs.takeWhile p = cs := by
  intro cs
  induction cs with
  | nil => intro _; rfl
  | cons c cs ih =>
      intro h
      simp [List.takeWhile_cons, h c (by simp),
        ih fun d hd => h d (by simp [hd])]

theorem dropWhile_all {p : Char → Bool} :
    ∀ cs : List Char, (∀ c ∈ cs, p c = true) → cs.dropWhile p = [] := by
  intro cs
  induction cs with
  | nil => intro _; rfl
  | cons c cs ih =>
      intro h
      simp [List.dropWhile_cons, h c (by simp),
        ih fun d hd => h d (by simp [hd])]

theorem takeWhile_append_stop {p : Char → Bool} (y : Char) (hy : p y = false) :
    ∀ (xs ys : List Char), (∀ c ∈ xs, p c = true) →
      (xs ++ y :: ys).takeWhile p = xs ∧ (xs ++ y :: ys).dropWhile p = y :: ys := by
  intro xs
  induction xs with
  | nil => intro ys _; simp [List.takeWhile_cons, List.dropWhile_cons, hy]
  | cons x xs ih =>
      intro ys h
      have hx : p x = true := h x (by simp)
      have := ih ys fun d hd => h d (by simp [hd])
      simp [List.takeWhile_cons, List.dropWhile_cons, hx, this.1, this.2]

theorem numValPos_digits (cs : List Char) (h : ∀ c ∈ cs, c ∈ digitChars) :
    numValPos cs = strToNatAux cs := by
  have hall : ∀ c ∈ cs, notSep c = true := fun c hc => digit_notSep (h c hc)
  unfold numValPos
  rw [dropWhile_all cs hall, takeWhile_all cs hall]

theorem numValChars_of_head_ne (cs : List Char)
    (h : ∀ c, cs.head? = some c → c ≠ '-') : numValChars cs = numValPos cs := by
  cases cs with
  | nil => rfl
  | cons c rest => simp [numValChars, h c rfl]

theorem numValChars_digits (cs : List Char) (h : ∀ c ∈ cs, c ∈ digitChars) :
    numValChars cs = numValPos cs := by
  refine numValChars_of_head_ne cs fun c hc => ?_
  cases cs with
  | nil => simp at hc
  | cons c0 rest =>
      simp at hc
      exact hc ▸ digit_ne_minus (h c0 (by simp))

theorem numVal_natToStr (n : Nat) : numVal (natToStr n) = n := by
  have hmem : ∀ c ∈ (natToStr n).data, c ∈ digitChars := fun c hc => mem_natToStr hc
  unfold numVal
  rw [numValChars_digits _ hmem, numValPos_digits _ hmem, strToNat_natToStr]

theorem natToStrAux_ne_nil (fuel n : Nat) : natToStrAux (fuel + 1) n ≠ [] := by
  unfold natToStrAux
  split <;> simp

theorem natToStr_data (n : Nat) : (natToStr n).data = natToStrAux (n + 1) n := rfl

theorem numVal_intStr (i : Int) : numVal (intStr i) = i := by
  cases i with
  | ofNat n => simpa using numVal_natToStr n
  | negSucc n =>
      have hdata : (intStr (Int.negSucc n)).data = '-' :: (natToStr (n + 1)).data := by
        show (("-" : String) ++ natToStr (n + 1)).data = _
        rw [String.data_append]
        rfl
      have hval : numValPos (natToStr (n + 1)).data = ((n : ℚ) + 1) := by
        rw [numValPos_digits _ fun c hc => mem_natToStr hc, strToNat_natToStr]
        push_cast
        ring
      unfold numVal
      rw [hdata]
      simp [numValChars, hval]

theorem numValPos_split (ip den : List Char) (hip : ∀ c ∈ ip, c ∈ digitChars) :
    numValPos (ip ++ '/' :: den) = (strToNatAux ip : ℚ) / (strToNatAux den : ℚ) := by
  have hstop := takeWhile_append_stop (p := notSep) '/' (by decide) ip den
    fun c hc => digit_notSep (hip c hc)
  unfold numValPos
  rw [hstop.2, hstop.1]
  simp

/-- JS round-trip contract `Number(String(x)) === x`, in the
exact-rational abstraction. -/
theorem numVal_jsString (q : ℚ) : numVal (jsString q) = q := by
  unfold jsString
  by_cases hden : q.den = 1
  · rw [if_pos hden, numVal_intStr]
    conv_rhs => rw [← Rat.num_div_den q, hden]
    norm_num
  · rw [if_neg hden]
    cases hi : q.num with
    | ofNat m =>
        have hdata : (intStr (Int.ofNat m) ++ "/" ++ natToStr q.den).data
            = (natToStr m).data ++ '/' :: (natToStr q.den).data := by
          rw [String.data_append, String.data_append]
          simp [intStr, List.append_assoc]
        have hsplit := numValPos_split (natToStr m).data (natToStr q.den).data
          fun c hc => mem_natToStr hc
        have hne : (natToStr m).data ≠ [] := natToStrAux_ne_nil m m
        have hhead : ∀ c, ((natToStr m).data ++ '/' :: (natToStr q.den).data).head? = some c →
            c ≠ '-' := by
          cases hcs : (natToStr m).data with
          | nil => exact absurd hcs hne
          | cons c0 rest =>
              intro c hcc
              simp at hcc
              exact hcc ▸ digit_ne_minus (mem_natToStr (hcs ▸ List.mem_cons_self c0 rest))
        unfold numVal
        rw [hdata, numValChars_of_head_ne _ hhead, hsplit,
          strToNat_natToStr, strToNat_natToStr]
        calc ((m : ℚ)) / ((q.den : ℚ)) = (q.num : ℚ) / ((q.den : ℚ)) := by
              rw [hi]; push_cast [Int.ofNat_eq_natCast]; ring
          _ = q := Rat.num_div_den q
    | negSucc m =>
        have hdata : (intStr (Int.negSucc m) ++ "/" ++ natToStr q.den).data
            = '-' :: ((natToStr (m + 1)).data ++ '/' :: (natToStr q.den).data) := by
          show ((("-" : String) ++ natToStr (m + 1)) ++ "/" ++ natToStr q.den).data = _
          rw [String.data_append, String.data_append, String.data_append]
          simp [List.append_assoc]
        have hsplit := numValPos_split (natToStr (m + 1)).data (natToStr q.den).data
          fun c hc => mem_natToStr hc
        unfold numVal
        rw [hdata]
        rw [show numValChars ('-' :: ((natToStr (m + 1)).data ++ '/' :: (natToStr q.den).data))
            = -(numValPos ((natToStr (m + 1)).data ++ '/' :: (natToStr q.den).data)) from by
          simp [numValChars]]
        rw [hsplit, strToNat_natToStr, strToNat_natToStr]
        calc -(((m + 1 : Nat) : ℚ) / ((q.den : ℚ))) = (q.num : ℚ) / ((q.den : ℚ)) := by
              rw [hi]
              push_cast
              ring
          _ = q := Rat.num_div_den q

/-! ### Value table and interning -/

/-- Index of the first entry of `vs` structurally equal to `v`
(the linear scan in `valueToIndex`). -/
def findEqIdx : List Value → Value → Option Nat
| [], _ => none
| w :: ws, v => if valuesEqual w v then some 0 else (findEqIdx ws v).map (· + 1)

/-- Source `valueToIndex(v)`: return the index of `v` within `values`,
appending it if not present (common subexpression elimination). -/
def valueToIndex (vs : List Value) (v : Value) : List Value × Nat :=
  match findEqIdx vs v with
  | some i => (vs, i)
  | none => (vs ++ [v], vs.length)

/-- Source `num(s)`: intern a `number` value. -/
def num (vs : List Value) (s : String) : List Value × Nat :=
  valueToIndex vs (Value.number s)

/-- Source `op(op, a, b)`: intern a binary-operation value. -/
def opV (vs : List Value) (o : Op) (a b : Nat) : List Value × Nat :=
  valueToIndex vs (Value.binop o a b)

/-- Source `isNumber(i)`: `values[i].type === "number"`. -/
def isNumber (vs : List Value) (i : Nat) : Bool :=
  match vs.get? i with
  | some (Value.number _) => true
  | _ => false

/-- Textual form `values[i].arg0` of a `number` entry. -/
def numText (vs : List Value) (i : Nat) : String :=
  match vs.get? i with
  | some (Value.number s) => s
  | _ => ""

/-- Source `isZero(i)`: a `number` entry with textual form `"0"`. -/
def isZero (vs : List Value) (i : Nat) : Bool :=
  isNumber vs i && numText vs i == "0"

/-- Source `isOne(i)`: a `number` entry with textual form `"1"`. -/
def isOne (vs : List Value) (i : Nat) : Bool :=
  isNumber vs i && numText vs i == "1"

/-! ### Simplifier: the four smart constructors -/

/-- Source `add(a, b)` with its identity and constant-folding rules. -/
def add (vs : List Value) (a b : Nat) : List Value × Nat :=
  if isZero vs a then (vs, b)
  else if isZero vs b then (vs, a)
  else if isNumber vs a && isNumber vs b then
    num vs (jsString (numVal (numText vs a) + numVal (numText vs b)))
  else opV vs Op.add a b

/-- Source `sub(a, b)` with its identity and constant-folding rules. -/
def sub (vs : List Value) (a b : Nat) : List Value × Nat :=
  if isZero vs b then (vs, a)
  else if isNumber vs a && isNumber vs b then
    num vs (jsString (numVal (numText vs a) - numVal (numText vs b)))
  else opV vs Op.sub a b

/-- Source `mul(a, b)` with its annihilator, identity and
constant-folding rules, tried in order. -/
def mul (vs : List Value) (a b : Nat) : List Value × Nat :=
  if isZero vs a then (vs, a)
  else if isZero vs b then (vs, b)
  else if isOne vs a then (vs, b)
  else if isOne vs b then (vs, a)
  else if isNumber vs a && isNumber vs b then
    num vs (jsString (numVal (numText vs a) * numVal (numText vs b)))
  else opV vs Op.mul a b

/-- Source `div(a, b)`: divide-by-one identity, constant folding only
for a non-zero constant divisor, otherwise an interned division. -/
def div (vs : List Value) (a b : Nat) : List Value × Nat :=
  if isOne vs b then (vs, a)
  else if isNumber vs a && isNumber vs b && !isZero vs b then
    num vs (jsString (numVal (numText vs a) / numVal (numText vs b)))
  else opV vs Op.div a b

/-! ### Lowering -/

/-- Compilation failure. `undefinedVariable id` models the
`SyntaxError("undefined variable: " + id)` thrown by `lower`;
`syntaxError` stands for parser-produced syntax errors. -/
inductive CompileError : Type
| syntaxError (msg : String)
| undefinedVariable (id : String)
deriving DecidableEq, Repr

/-- The seeded table: `values[0]` is `z_re`, `values[1]` is `z_im`. -/
def initialValues : List Value := [Value.arg "z_re", Value.arg "z_im"]

/-- Source `lower(obj)`: reduce a complex-number AST to a pair of
value-table indices (real part, imaginary part), threading the mutable
`values` array. Sub-calls run in JS evaluation order. -/
def lower (vs : List Value) : Expr → Except CompileError (List Value × (Nat × Nat))
| Expr.number v =>
    let p1 := num vs v
    let p2 := num p1.1 "0"
    Except.ok (p2.1, (p1.2, p2.2))
| Expr.binop Op.add l r =>
    match lower vs l with
    | Except.error err => Except.error err
    | Except.ok (vs1, a) =>
        match lower vs1 r with
        | Except.error err => Except.error err
        | Except.ok (vs2, b) =>
            let p3 := add vs2 a.1 b.1
            let p4 := add p3.1 a.2 b.2
            Except.ok (p4.1, (p3.2, p4.2))
| Expr.binop Op.sub l r =>
    match lower vs l with
    | Except.error err => Except.error err
    | Except.ok (vs1, a) =>
        match lower vs1 r with
        | Except.error err => Except.error err
        | Except.ok (vs2, b) =>
            let p3 := sub vs2 a.1 b.1
            let p4 := sub p3.1 a.2 b.2
            Except.ok (p4.1, (p3.2, p4.2))
| Expr.binop Op.mul l r =>
    match lower vs l with
    | Except.error err => Except.error err
    | Except.ok (vs1, a) =>
        match lower vs1 r with
        | Except.error err => Except.error err
        | Except.ok (vs2, b) =>
            let p3 := mul vs2 a.1 b.1
            let p4 := mul p3.1 a.2 b.2
            let p5 := sub p4.1 p3.2 p4.2
            let p6 := mul p5.1 a.1 b.2
            let p7 := mul p6.1 a.2 b.1
            let p8 := add p7.1 p6.2 p7.2
            Except.ok (p8.1, (p5.2, p8.2))
| Expr.binop Op.div l r =>
    match lower vs l with
    | Except.error err => Except.error err
    | Except.ok (vs1, a) =>
        match lower vs1 r with
        | Except.error err => Except.error err
        | Except.ok (vs2, b) =>
            let p3 := mul vs2 b.1 b.1
            let p4 := mul p3.1 b.2 b.2
            let p5 := add p4.1 p3.2 p4.2
            let p6 := mul p5.1 a.1 b.1
            let p7 := mul p6.1 a.2 b.2
            let p8 := add p7.1 p6.2 p7.2
            let p9 := div p8.1 p8.2 p5.2
            let p10 := mul p9.1 a.2 b.1
            let p11 := mul p10.1 a.1 b.2
            let p12 := sub p11.1 p10.2 p11.2
            let p13 := div p12.1 p12.2 p5.2
            Except.ok (p13.1, (p9.2, p13.2))
| Expr.name id =>
    if id = "i" then
      let p1 := num vs "0"
      let p2 := num p1.1 "1"
      Except.ok (p2.1, (p1.2, p2.2))
    else if id ≠ "z" then Except.error (CompileError.undefinedVariable id)
    else Except.ok (vs, (0, 1))

/-! ### Code emission -/

/-- One `useCounts[j]++` step of `computeUseCounts` (increments an
existing slot; with the table in topological order every increment hits
a slot that has already been initialised). -/
def bumpAt (counts : List Nat) (j : Nat) : List Nat :=
  counts.set j (counts.getD j 0 + 1)

/-- Loop body state of `computeUseCounts`: `useCounts[i] = 0` for the
current entry, then increment both operand slots of a binary entry. -/
def useCountStep (counts : List Nat) (v : Value) : List Nat :=
  match v with
  | Value.binop _ a b => bumpAt (bumpAt (counts ++ [0]) a) b
  | _ => counts ++ [0]

/-- Source `computeUseCounts(values)`: per-index count of appearances
as an operand of a binary-operation entry. -/
def computeUseCounts (vs : List Value) : List Nat :=
  vs.foldl useCountStep []

/-- Number of times index `j` occurs as an operand of one entry: two
for `binop o j j`, one for `binop` with it on one side, zero otherwise. -/
def binContrib (j : Nat) : Value → Nat
| Value.binop _ a b => (if a = j then 1 else 0) + (if b = j then 1 else 0)
| _ => 0

/-- Specification-level count: the number of times index `j` occurs as
an operand of a `binop` entry of the table. -/
def operandUses (vs : List Value) (j : Nat) : Nat :=
  (vs.map (binContrib j)).sum

/-- One iteration of the `ir_to_js` loop: compute the expression string
for entry `i` (the current length of `js`), then if `useCounts[i] > 1`
bind it to a fresh temporary `t<n>` and refer to the temporary from then
on. The state is `(code, next_temp_id, js)`. -/
def emitStep (useCounts : List Nat) (st : String × Nat × List String) (v : Value) :
    String × Nat × List String :=
  let code := st.1
  let next := st.2.1
  let js := st.2.2
  let jsi :=
    match v with
    | Value.arg s => s
    | Value.number t => t
    | Value.binop o a b => "(" ++ js.getD a "" ++ opStr o ++ js.getD b "" ++ ")"
  if useCounts.getD js.length 0 > 1 then
    let name := "t" ++ natToStr next
    (code ++ "var " ++ name ++ " = " ++ jsi ++ ";\n", next + 1, js ++ [name])
  else
    (code, next, js ++ [jsi])

/-- Source `ir_to_js(values, result)`: emit one `var` statement per
entry with use-count above one, in index order, then return the result
pair. -/
def ir_to_js (vs : List Value) (result : Nat × Nat) : String :=
  let useCounts := computeUseCounts vs
  let st := vs.foldl (emitStep useCounts) ("", 0, [])
  st.1 ++ "return \x7bre: " ++ st.2.2.getD result.1 "" ++ ", im: "
    ++ st.2.2.getD result.2 "" ++ "\x7d;\n"

/-- Source `compileToComplexFunction`, minus the excluded parser: lower
the AST against a fresh seeded table, then emit the body of the
returned function. On failure nothing is produced. -/
def compileToComplexFunction (e : Expr) : Except CompileError String :=
  match lower initialValues e with
  | Except.error err => Except.error err
  | Except.ok (vs, result) => Except.ok (ir_to_js vs result)

/-! ### Interning lemmas -/

theorem findEqIdx_some {v : Value} :
    ∀ {vs : List Value} {i : Nat}, findEqIdx vs v = some i →
      i < vs.length ∧ vs.get? i = some v := by
  intro vs
  induction vs with
  | nil => intro i h; simp [findEqIdx] at h
  | cons w ws ih =>
      intro i h
      by_cases hw : valuesEqual w v
      · simp [findEqIdx, hw] at h
        subst h
        simp [(valuesEqual_iff w v).mp hw]
      · simp [findEqIdx, hw] at h
        obtain ⟨j, hj, hji⟩ := h
        obtain ⟨hlt, hget⟩ := ih hj
        subst hji
        exact ⟨Nat.succ_lt_succ hlt, hget⟩

theorem findEqIdx_none {v : Value} :
    ∀ {vs : List Value}, findEqIdx vs v = none → v ∉ vs := by
  intro vs
  induction vs with
  | nil => intro _; simp
  | cons w ws ih =>
      intro h
      by_cases hw : valuesEqual w v
      · simp [findEqIdx, hw] at h
      · simp [findEqIdx, hw] at h
        have hne : w ≠ v := fun he => hw ((valuesEqual_iff w v).mpr he)
        simp [List.mem_cons, not_or]
        exact ⟨fun he => hne he.symm, ih h⟩

theorem findEqIdx_append_self {v : Value} :
    ∀ {vs : List Value}, findEqIdx vs v = none →
      findEqIdx (vs ++ [v]) v = some vs.length := by
  intro vs
  induction vs with
  | nil => intro _; simp [findEqIdx, (valuesEqual_iff v v).mpr rfl]
  | cons w ws ih =>
      intro h
      by_cases hw : valuesEqual w v
      · simp [findEqIdx, hw] at h
      · simp [findEqIdx, hw] at h ⊢
        simp [ih h]

theorem findEqIdx_append_of_some {v : Value} :
    ∀ {vs : List Value} {ws : List Value} {i : Nat}, findEqIdx vs v = some i →
      findEqIdx (vs ++ ws) v = some i := by
  intro vs
  induction vs with
  | nil => intro ws i h; simp [findEqIdx] at h
  | cons w tl ih =>
      intro ws i h
      by_cases hw : valuesEqual w v
      · simp [findEqIdx, hw] at h ⊢
        exact h
      · simp [findEqIdx, hw] at h ⊢
        obtain ⟨j, hj, hji⟩ := h
        exact ⟨j, ih hj, hji⟩

theorem valueToIndex_cases (vs : List Value) (v : Value) :
    (∃ i, findEqIdx vs v = some i ∧ valueToIndex vs v = (vs, i)) ∨
      (findEqIdx vs v = none ∧ valueToIndex vs v = (vs ++ [v], vs.length)) := by
  unfold valueToIndex
  cases h : findEqIdx vs v with
  | none => exact Or.inr ⟨rfl, rfl⟩
  | some i => exact Or.inl ⟨i, rfl, rfl⟩

theorem valueToIndex_extends (vs : List Value) (v : Value) :
    ∃ ws, (valueToIndex vs v).1 = vs ++ ws := by
  rcases valueToIndex_cases vs v with ⟨i, _, h⟩ | ⟨_, h⟩
  · exact ⟨[], by simp [h]⟩
  · exact ⟨[v], by simp [h]⟩

theorem valueToIndex_get (vs : List Value) (v : Value) :
    (valueToIndex vs v).1.get? (valueToIndex vs v).2 = some v := by
  rcases valueToIndex_cases vs v with ⟨i, hf, h⟩ | ⟨_, h⟩
  · rw [h]
    exact (findEqIdx_some hf).2
  · rw [h]
    simp

theorem valueToIndex_lt (vs : List Value) (v : Value) :
    (valueToIndex vs v).2 < (valueToIndex vs v).1.length := by
  rcases valueToIndex_cases vs v with ⟨i, hf, h⟩ | ⟨_, h⟩
  · rw [h]
    exact (findEqIdx_some hf).1
  · rw [h]
    simp

theorem valueToIndex_nodup (vs : List Value) (v : Value) (h : vs.Nodup) :
    (valueToIndex vs v).1.Nodup := by
  rcases valueToIndex_cases vs v with ⟨i, _, hv⟩ | ⟨hf, hv⟩
  · rw [hv]
    exact h
  · rw [hv]
    simpa [List.nodup_append] using ⟨h, findEqIdx_none hf⟩

/-! ### The topological-order invariant -/

/-- Every binary entry refers only to strictly earlier entries. -/
def TopoOK (vs : List Value) : Prop :=
  ∀ i o a b, vs.get? i = some (Value.binop o a b) → a < i ∧ b < i

theorem topoOK_initial : TopoOK initialValues := by
  intro i o a b h
  match i with
  | 0 => simp [initialValues] at h
  | 1 => simp [initialValues] at h
  | (n + 2) => simp [initialValues] at h

theorem topoOK_append (vs : List Value) (v : Value) (h : TopoOK vs)
    (hv : ∀ o a b, v = Value.binop o a b → a < vs.length ∧ b < vs.length) :
    TopoOK (vs ++ [v]) := by
  intro i o a b hget
  by_cases hi : i < vs.length
  · rw [List.get?_append hi] at hget
    exact h i o a b hget
  · have hii : i = vs.length := by
      by_contra hne
      have : vs.length + 1 ≤ i := by omega
      rw [List.get?_eq_none.mpr (by simpa using this)] at hget
      exact Option.noConfusion hget
    subst hii
    have : v = Value.binop o a b := by
      rw [List.get?_append_right (le_refl _)] at hget
      simp at hget
      exact hget.symm ▸ rfl
    exact hv o a b this

/-! ### Denotational semantics of the value table -/

/-- Scalar meaning of an operator. On ℚ, division is total with the
usual junk value `q / 0 = 0`; real JS defers a zero divisor to runtime
floating-point semantics, which the exact abstraction does not model. -/
def applyOp : Op → ℚ → ℚ → ℚ
| Op.add => (· + ·)
| Op.sub => (· - ·)
| Op.mul => (· * ·)
| Op.div => (· / ·)

/-- Meaning of an argument entry given the two inputs. -/
def denotArg (x y : ℚ) (s : String) : ℚ :=
  if s = "z_re" then x else if s = "z_im" then y else 0

/-- Fuel-indexed evaluation of the entry at index `i`; with the table
in topological order, fuel `i + 1` suffices. -/
def evalV (vs : List Value) (x y : ℚ) : Nat → Nat → ℚ
| 0, _ => 0
| fuel + 1, i =>
    match vs.get? i with
    | some (Value.arg s) => denotArg x y s
    | some (Value.number t) => numVal t
    | some (Value.binop o a b) =>
        applyOp o (evalV vs x y fuel a) (evalV vs x y fuel b)
    | none => 0

/-- Value denoted by the table entry at index `i`. -/
def evalIdx (vs : List Value) (x y : ℚ) (i : Nat) : ℚ :=
  evalV vs x y (i + 1) i

theorem evalV_fuel {vs : List Value} (h : TopoOK vs) (x y : ℚ) :
    ∀ f1 f2 i, i < f1 → i < f2 → evalV vs x y f1 i = evalV vs x y f2 i := by
  intro f1
  induction f1 with
  | zero => intro f2 i h1 _; omega
  | succ g1 ih =>
      intro f2 i h1 h2
      cases f2 with
      | zero => omega
      | succ g2 =>
          show evalV vs x y (g1 + 1) i = evalV vs x y (g2 + 1) i
          unfold evalV
          cases hget : vs.get? i with
          | none => rfl
          | some v =>
              cases v with
              | arg s => rfl
              | number t => rfl
              | binop o a b =>
                  obtain ⟨ha, hb⟩ := h i o a b hget
                  dsimp only
                  rw [ih g2 a (by omega) (by omega), ih g2 b (by omega) (by omega)]

theorem evalV_eq_evalIdx {vs : List Value} (h : TopoOK vs) (x y : ℚ)
    {fuel i : Nat} (hf : i < fuel) : evalV vs x y fuel i = evalIdx vs x y i :=
  evalV_fuel h x y fuel (i + 1) i hf (Nat.lt_succ_self i)

theorem evalV_append {vs ws : List Value} (h : TopoOK vs) (x y : ℚ) :
    ∀ fuel i, i < vs.length → evalV (vs ++ ws) x y fuel i = evalV vs x y fuel i := by
  intro fuel
  induction fuel with
  | zero => intro i _; rfl
  | succ g ih =>
      intro i hi
      show evalV (vs ++ ws) x y (g + 1) i = evalV vs x y (g + 1) i
      unfold evalV
      rw [List.get?_append hi]
      cases hget : vs.get? i with
      | none => rfl
      | some v =>
          cases v with
          | arg s => rfl
          | number t => rfl
          | binop o a b =>
              obtain ⟨ha, hb⟩ := h i o a b hget
              dsimp only
              rw [ih a (by omega), ih b (by omega)]

theorem evalIdx_append {vs ws : List Value} (h : TopoOK vs) (x y : ℚ)
    {i : Nat} (hi : i < vs.length) :
    evalIdx (vs ++ ws) x y i = evalIdx vs x y i :=
  evalV_append h x y (i + 1) i hi

theorem evalIdx_number {vs : List Value} {i : Nat} {t : String} (x y : ℚ)
    (hget : vs.get? i = some (Value.number t)) :
    evalIdx vs x y i = numVal t := by
  unfold evalIdx evalV
  rw [hget]

theorem evalIdx_arg {vs : List Value} {i : Nat} {s : String} (x y : ℚ)
    (hget : vs.get? i = some (Value.arg s)) :
    evalIdx vs x y i = denotArg x y s := by
  unfold evalIdx evalV
  rw [hget]

theorem evalIdx_binop {vs : List Value} (h : TopoOK vs) (x y : ℚ)
    {i a b : Nat} {o : Op} (hget : vs.get? i = some (Value.binop o a b)) :
    evalIdx vs x y i = applyOp o (evalIdx vs x y a) (evalIdx vs x y b) := by
  obtain ⟨ha, hb⟩ := h i o a b hget
  show evalV vs x y (i + 1) i = _
  unfold evalV
  rw [hget]
  dsimp only
  rw [evalV_fuel h x y i (a + 1) a (by omega) (by omega),
    evalV_fuel h x y i (b + 1) b (by omega) (by omega)]
  rfl

/-! ### Predicate and simplifier lemmas -/

theorem numVal_zero : numVal "0" = 0 := by
  have h : ∀ c ∈ ("0" : String).data, c ∈ digitChars := by decide
  unfold numVal
  rw [numValChars_digits _ h, numValPos_digits _ h,
    show strToNatAux ("0" : String).data = 0 from by decide]
  norm_num

theorem numVal_one : numVal "1" = 1 := by
  have h : ∀ c ∈ ("1" : String).data, c ∈ digitChars := by decide
  unfold numVal
  rw [numValChars_digits _ h, numValPos_digits _ h,
    show strToNatAux ("1" : String).data = 1 from by decide]
  norm_num

theorem isNumber_spec {vs : List Value} {i : Nat} (h : isNumber vs i = true) :
    vs.get? i = some (Value.number (numText vs i)) := by
  unfold isNumber at h
  unfold numText
  cases hget : vs.get? i with
  | none => rw [hget] at h; simp at h
  | some v =>
      cases v with
      | number t => rfl
      | arg s => rw [hget] at h; simp at h
      | binop o a b => rw [hget] at h; simp at h

theorem isZero_spec {vs : List Value} {i : Nat} (h : isZero vs i = true) :
    vs.get? i = some (Value.number "0") := by
  unfold isZero at h
  simp only [Bool.and_eq_true] at h
  obtain ⟨h1, h2⟩ := h
  have ht : numText vs i = "0" := by simpa using h2
  have := isNumber_spec h1
  rw [ht] at this
  exact this

theorem isOne_spec {vs : List Value} {i : Nat} (h : isOne vs i = true) :
    vs.get? i = some (Value.number "1") := by
  unfold isOne at h
  simp only [Bool.and_eq_true] at h
  obtain ⟨h1, h2⟩ := h
  have ht : numText vs i = "1" := by simpa using h2
  have := isNumber_spec h1
  rw [ht] at this
  exact this

theorem evalIdx_isZero {vs : List Value} {i : Nat} (x y : ℚ)
    (h : isZero vs i = true) : evalIdx vs x y i = 0 := by
  rw [evalIdx_number x y (isZero_spec h), numVal_zero]

theorem evalIdx_isOne {vs : List Value} {i : Nat} (x y : ℚ)
    (h : isOne vs i = true) : evalIdx vs x y i = 1 := by
  rw [evalIdx_number x y (isOne_spec h), numVal_one]

theorem evalIdx_isNumber {vs : List Value} {i : Nat} (x y : ℚ)
    (h : isNumber vs i = true) : evalIdx vs x y i = numVal (numText vs i) :=
  evalIdx_number x y (isNumber_spec h)

theorem valueToIndex_topo (vs : List Value) (v : Value) (h : TopoOK vs)
    (hv : ∀ o a b, v = Value.binop o a b → a < vs.length ∧ b < vs.length) :
    TopoOK (valueToIndex vs v).1 := by
  rcases valueToIndex_cases vs v with ⟨i, _, hvi⟩ | ⟨_, hvi⟩
  · rw [hvi]
    exact h
  · rw [hvi]
    exact topoOK_append vs v h hv

theorem num_topo (vs : List Value) (s : String) (h : TopoOK vs) :
    TopoOK (num vs s).1 :=
  valueToIndex_topo vs (Value.number s) h (fun o a b hv => by cases hv)

theorem num_eval (vs : List Value) (s : String) (x y : ℚ) :
    evalIdx (num vs s).1 x y (num vs s).2 = numVal s :=
  evalIdx_number x y (valueToIndex_get vs (Value.number s))

theorem opV_topo (vs : List Value) (o : Op) (a b : Nat) (h : TopoOK vs)
    (ha : a < vs.length) (hb : b < vs.length) : TopoOK (opV vs o a b).1 :=
  valueToIndex_topo vs (Value.binop o a b) h
    (fun o' a' b' hv => by cases hv; exact ⟨ha, hb⟩)

theorem opV_eval (vs : List Value) (o : Op) (a b : Nat) (h : TopoOK vs)
    (ha : a < vs.length) (hb : b < vs.length) (x y : ℚ) :
    evalIdx (opV vs o a b).1 x y (opV vs o a b).2
      = applyOp o (evalIdx vs x y a) (evalIdx vs x y b) := by
  unfold opV
  obtain ⟨ws, hws⟩ := valueToIndex_extends vs (Value.binop o a b)
  have htopo : TopoOK (valueToIndex vs (Value.binop o a b)).1 :=
    valueToIndex_topo vs (Value.binop o a b) h
      (fun o' a' b' hv => by cases hv; exact ⟨ha, hb⟩)
  rw [evalIdx_binop htopo x y (valueToIndex_get vs (Value.binop o a b)),
    hws, evalIdx_append h x y ha, evalIdx_append h x y hb]

theorem num_extends (vs : List Value) (s : String) :
    ∃ ws, (num vs s).1 = vs ++ ws := valueToIndex_extends vs (Value.number s)

theorem num_lt (vs : List Value) (s : String) :
    (num vs s).2 < (num vs s).1.length := valueToIndex_lt vs (Value.number s)

theorem opV_extends (vs : List Value) (o : Op) (a b : Nat) :
    ∃ ws, (opV vs o a b).1 = vs ++ ws := valueToIndex_extends vs (Value.binop o a b)

theorem opV_lt (vs : List Value) (o : Op) (a b : Nat) :
    (opV vs o a b).2 < (opV vs o a b).1.length := valueToIndex_lt vs (Value.binop o a b)

/-- Shape of every simplifier result: the table only grows, stays
topologically ordered, the returned index is in bounds, and the entry
denotes the scalar operation applied to the operands' denotations. -/
def SimpSpec (vs : List Value) (a b : Nat) (r : List Value × Nat)
    (g : ℚ → ℚ → ℚ) : Prop :=
  (∃ ws, r.1 = vs ++ ws) ∧ TopoOK r.1 ∧ r.2 < r.1.length ∧
    ∀ x y : ℚ, evalIdx r.1 x y r.2 = g (evalIdx vs x y a) (evalIdx vs x y b)

theorem add_spec (vs : List Value) (a b : Nat) (h : TopoOK vs)
    (ha : a < vs.length) (hb : b < vs.length) :
    SimpSpec vs a b (add vs a b) (· + ·) := by
  by_cases h1 : isZero vs a = true
  · have he : add vs a b = (vs, b) := by unfold add; simp [h1]
    rw [he]
    exact ⟨⟨[], by simp⟩, h, hb, fun x y => by
      simp [evalIdx_isZero x y h1]⟩
  · by_cases h2 : isZero vs b = true
    · have he : add vs a b = (vs, a) := by unfold add; simp [h1, h2]
      rw [he]
      exact ⟨⟨[], by simp⟩, h, ha, fun x y => by
        simp [evalIdx_isZero x y h2]⟩
    · by_cases h3 : (isNumber vs a && isNumber vs b) = true
      · obtain ⟨hA, hB⟩ := by simpa [Bool.and_eq_true] using h3
        have he : add vs a b
            = num vs (jsString (numVal (numText vs a) + numVal (numText vs b))) := by
          unfold add; simp [h1, h2, hA, hB]
        rw [he]
        exact ⟨num_extends _ _, num_topo _ _ h, num_lt _ _, fun x y => by
          rw [num_eval, numVal_jsString, evalIdx_isNumber x y hA, evalIdx_isNumber x y hB]⟩
      · have he : add vs a b = opV vs Op.add a b := by
          unfold add; simp [h1, h2, h3]
        rw [he]
        exact ⟨opV_extends _ _ _ _, opV_topo _ _ _ _ h ha hb, opV_lt _ _ _ _,
          fun x y => opV_eval vs Op.add a b h ha hb x y⟩

theorem sub_spec (vs : List Value) (a b : Nat) (h : TopoOK vs)
    (ha : a < vs.length) (hb : b < vs.length) :
    SimpSpec vs a b (sub vs a b) (· - ·) := by
  by_cases h2 : isZero vs b = true
  · have he : sub vs a b = (vs, a) := by unfold sub; simp [h2]
    rw [he]
    exact ⟨⟨[], by simp⟩, h, ha, fun x y => by
      simp [evalIdx_isZero x y h2]⟩
  · by_cases h3 : (isNumber vs a && isNumber vs b) = true
    · obtain ⟨hA, hB⟩ := by simpa [Bool.and_eq_true] using h3
      have he : sub vs a b
          = num vs (jsString (numVal (numText vs a) - numVal (numText vs b))) := by
        unfold sub; simp [h2, hA, hB]
      rw [he]
      exact ⟨num_extends _ _, num_topo _ _ h, num_lt _ _, fun x y => by
        rw [num_eval, numVal_jsString, evalIdx_isNumber x y hA, evalIdx_isNumber x y hB]⟩
    · have he : sub vs a b = opV vs Op.sub a b := by
        unfold sub; simp [h2, h3]
      rw [he]
      exact ⟨opV_extends _ _ _ _, opV_topo _ _ _ _ h ha hb, opV_lt _ _ _ _,
        fun x y => opV_eval vs Op.sub a b h ha hb x y⟩

theorem mul_spec (vs : List Value) (a b : Nat) (h : TopoOK vs)
    (ha : a < vs.length) (hb : b < vs.length) :
    SimpSpec vs a b (mul vs a b) (· * ·) := by
  by_cases h1 : isZero vs a = true
  · have he : mul vs a b = (vs, a) := by unfold mul; simp [h1]
    rw [he]
    exact ⟨⟨[], by simp⟩, h, ha, fun x y => by
      simp [evalIdx_isZero x y h1]⟩
  · by_cases h2 : isZero vs b = true
    · have he : mul vs a b = (vs, b) := by unfold mul; simp [h1, h2]
      rw [he]
      exact ⟨⟨[], by simp⟩, h, hb, fun x y => by
        simp [evalIdx_isZero x y h2]⟩
    · by_cases h3 : isOne vs a = true
      · have he : mul vs a b = (vs, b) := by unfold mul; simp [h1, h2, h3]
        rw [he]
        exact ⟨⟨[], by simp⟩, h, hb, fun x y => by
          simp [evalIdx_isOne x y h3]⟩
      · by_cases h4 : isOne vs b = true
        · have he : mul vs a b = (vs, a) := by unfold mul; simp [h1, h2, h3, h4]
          rw [he]
          exact ⟨⟨[], by simp⟩, h, ha, fun x y => by
            simp [evalIdx_isOne x y h4]⟩
        · by_cases h5 : (isNumber vs a && isNumber vs b) = true
          · obtain ⟨hA, hB⟩ := by simpa [Bool.and_eq_true] using h5
            have he : mul vs a b
                = num vs (jsString (numVal (numText vs a) * numVal (numText vs b))) := by
              unfold mul; simp [h1, h2, h3, h4, hA, hB]
            rw [he]
            exact ⟨num_extends _ _, num_topo _ _ h, num_lt _ _, fun x y => by
              rw [num_eval, numVal_jsString, evalIdx_isNumber x y hA,
                evalIdx_isNumber x y hB]⟩
          · have he : mul vs a b = opV vs Op.mul a b := by
              unfold mul; simp [h1, h2, h3, h4, h5]
            rw [he]
            exact ⟨opV_extends _ _ _ _, opV_topo _ _ _ _ h ha hb, opV_lt _ _ _ _,
              fun x y => opV_eval vs Op.mul a b h ha hb x y⟩

theorem div_spec (vs : List Value) (a b : Nat) (h : TopoOK vs)
    (ha : a < vs.length) (hb : b < vs.length) :
    SimpSpec vs a b (div vs a b) (· / ·) := by
  by_cases h1 : isOne vs b = true
  · have he : div vs a b = (vs, a) := by unfold div; simp [h1]
    rw [he]
    exact ⟨⟨[], by simp⟩, h, ha, fun x y => by
      simp [evalIdx_isOne x y h1]⟩
  · by_cases h2 : ((isNumber vs a && isNumber vs b) && !isZero vs b) = true
    · obtain ⟨⟨hA, hB⟩, hZ⟩ := by simpa [Bool.and_eq_true] using h2
      have he : div vs a b
          = num vs (jsString (numVal (numText vs a) / numVal (numText vs b))) := by
        unfold div; simp [h1, hA, hB, hZ]
      rw [he]
      exact ⟨num_extends _ _, num_topo _ _ h, num_lt _ _, fun x y => by
        rw [num_eval, numVal_jsString, evalIdx_isNumber x y hA,
          evalIdx_isNumber x y hB]⟩
    · have he : div vs a b = opV vs Op.div a b := by
        unfold div
        rw [if_neg (by simpa using h1)]
        rw [if_neg]
        intro hcon
        exact h2 (by simpa [Bool.and_eq_true] using hcon)
      rw [he]
      exact ⟨opV_extends _ _ _ _, opV_topo _ _ _ _ h ha hb, opV_lt _ _ _ _,
        fun x y => opV_eval vs Op.div a b h ha hb x y⟩

/-! ### Direct complex evaluation (the specification side) -/

/-- Does the formula use only the identifiers `z` and `i`? -/
def usesOnlyZI : Expr → Bool
| Expr.number _ => true
| Expr.name id => id == "z" || id == "i"
| Expr.binop _ l r => usesOnlyZI l && usesOnlyZI r

/-- Componentwise complex addition. -/
def cAdd (p q : ℚ × ℚ) : ℚ × ℚ := (p.1 + q.1, p.2 + q.2)

/-- Componentwise complex subtraction. -/
def cSub (p q : ℚ × ℚ) : ℚ × ℚ := (p.1 - q.1, p.2 - q.2)

/-- Complex multiplication on real/imaginary pairs. -/
def cMul (p q : ℚ × ℚ) : ℚ × ℚ := (p.1 * q.1 - p.2 * q.2, p.1 * q.2 + p.2 * q.1)

/-- Complex division by conjugate multiplication (for a zero divisor the
exact-rational junk convention `r / 0 = 0` applies, mirroring the junk
value of `applyOp`). -/
def cDiv (p q : ℚ × ℚ) : ℚ × ℚ :=
  ((p.1 * q.1 + p.2 * q.2) / (q.1 * q.1 + q.2 * q.2),
   (p.2 * q.1 - p.1 * q.2) / (q.1 * q.1 + q.2 * q.2))

/-- Complex meaning of an operator. -/
def applyCOp : Op → ℚ × ℚ → ℚ × ℚ → ℚ × ℚ
| Op.add => cAdd
| Op.sub => cSub
| Op.mul => cMul
| Op.div => cDiv

/-- Direct evaluation of the formula as a complex-number expression
(per the spec's round-trip property): `z` is bound to `x + y*i`, `i` to
the imaginary unit, numeric literals are real. -/
def cEval (x y : ℚ) : Expr → ℚ × ℚ
| Expr.number v => (numVal v, 0)
| Expr.name id => if id = "z" then (x, y) else if id = "i" then (0, 1) else (0, 0)
| Expr.binop o l r => applyCOp o (cEval x y l) (cEval x y r)

/-- The two seeded argument entries are in place. -/
def Seeded (vs : List Value) : Prop :=
  vs.get? 0 = some (Value.arg "z_re") ∧ vs.get? 1 = some (Value.arg "z_im")

theorem seeded_initial : Seeded initialValues := ⟨rfl, rfl⟩

theorem seeded_len {vs : List Value} (h : Seeded vs) : 2 ≤ vs.length := by
  by_contra hlt
  have : vs.get? 1 = none := List.get?_eq_none.mpr (by omega)
  rw [h.2] at this
  exact Option.noConfusion this

theorem le_ext {vs vs' : List Value} (h : ∃ ws, vs' = vs ++ ws) :
    vs.length ≤ vs'.length := by
  obtain ⟨ws, rfl⟩ := h
  simp

theorem ext_refl (vs : List Value) : ∃ ws, vs = vs ++ ws := ⟨[], by simp⟩

theorem ext_trans {vs1 vs2 vs3 : List Value} (h1 : ∃ ws, vs2 = vs1 ++ ws)
    (h2 : ∃ ws, vs3 = vs2 ++ ws) : ∃ ws, vs3 = vs1 ++ ws := by
  obtain ⟨w1, rfl⟩ := h1
  obtain ⟨w2, rfl⟩ := h2
  exact ⟨w1 ++ w2, by simp⟩

theorem seeded_ext {vs vs' : List Value} (h : Seeded vs)
    (hext : ∃ ws, vs' = vs ++ ws) : Seeded vs' := by
  obtain ⟨ws, rfl⟩ := hext
  have h0 : (0 : Nat) < vs.length := by have := seeded_len h; omega
  have h1 : (1 : Nat) < vs.length := by have := seeded_len h; omega
  exact ⟨by rw [List.get?_append h0]; exact h.1, by rw [List.get?_append h1]; exact h.2⟩

theorem eval_mono {vs vs' : List Value} (h : TopoOK vs)
    (hext : ∃ ws, vs' = vs ++ ws) {i : Nat} (hi : i < vs.length) :
    i < vs'.length ∧ ∀ x y : ℚ, evalIdx vs' x y i = evalIdx vs x y i := by
  obtain ⟨ws, rfl⟩ := hext
  refine ⟨by simp; omega, fun x y => evalIdx_append h x y hi⟩

theorem seeded_eval {vs : List Value} (h : Seeded vs) (x y : ℚ) :
    evalIdx vs x y 0 = x ∧ evalIdx vs x y 1 = y := by
  constructor
  · rw [evalIdx_arg x y h.1]
    simp [denotArg]
  · rw [evalIdx_arg x y h.2]
    simp [denotArg]

/-- Main soundness invariant of `lower`: on a seeded, topologically
ordered table, lowering a formula over `z` and `i` succeeds, only grows
the table, preserves the invariants, and the two returned indices denote
the real and imaginary parts of the direct complex evaluation. -/
theorem lower_sound (e : Expr) : ∀ vs : List Value,
    usesOnlyZI e = true → Seeded vs → TopoOK vs →
    ∃ vs2 r s, lower vs e = Except.ok (vs2, (r, s)) ∧ (∃ ws, vs2 = vs ++ ws) ∧
      Seeded vs2 ∧ TopoOK vs2 ∧ r < vs2.length ∧ s < vs2.length ∧
      ∀ x y : ℚ, evalIdx vs2 x y r = (cEval x y e).1 ∧
        evalIdx vs2 x y s = (cEval x y e).2 := by
  induction e with
  | number v =>
      intro vs _ hseed htopo
      have ext1 := num_extends vs v
      have topo1 := num_topo vs v htopo
      have ext2 := num_extends (num vs v).1 "0"
      have topo2 := num_topo (num vs v).1 "0" topo1
      refine ⟨(num (num vs v).1 "0").1, (num vs v).2, (num (num vs v).1 "0").2,
        rfl, ext_trans ext1 ext2, seeded_ext hseed (ext_trans ext1 ext2), topo2,
        lt_of_lt_of_le (num_lt vs v) (le_ext ext2), num_lt _ _, fun x y => ?_⟩
      constructor
      · rw [(eval_mono topo1 ext2 (num_lt vs v)).2 x y, num_eval]
        rfl
      · rw [num_eval, numVal_zero]
        rfl
  | name id =>
      intro vs honly hseed htopo
      by_cases hi : id = "i"
      · subst hi
        have heq : lower vs (Expr.name "i")
            = Except.ok ((num (num vs "0").1 "1").1,
                ((num vs "0").2, (num (num vs "0").1 "1").2)) := by
          simp only [lower]
          rfl
        have ext1 := num_extends vs "0"
        have topo1 := num_topo vs "0" htopo
        have ext2 := num_extends (num vs "0").1 "1"
        have topo2 := num_topo (num vs "0").1 "1" topo1
        refine ⟨_, _, _, heq, ext_trans ext1 ext2,
          seeded_ext hseed (ext_trans ext1 ext2), topo2,
          lt_of_lt_of_le (num_lt vs "0") (le_ext ext2), num_lt _ _, fun x y => ?_⟩
        constructor
        · rw [(eval_mono topo1 ext2 (num_lt vs "0")).2 x y, num_eval, numVal_zero]
          simp [cEval]
        · rw [num_eval, numVal_one]
          simp [cEval]
      · have hz : id = "z" := by
          simp [usesOnlyZI] at honly
          rcases honly with h | h
          · exact h
          · exact absurd h hi
        subst hz
        have heq : lower vs (Expr.name "z") = Except.ok (vs, (0, 1)) := by
          simp only [lower]
          rfl
        have hlen := seeded_len hseed
        refine ⟨vs, 0, 1, heq, ext_refl vs, hseed, htopo, by omega, by omega,
          fun x y => ?_⟩
        obtain ⟨h0, h1⟩ := seeded_eval hseed x y
        constructor
        · rw [h0]
          simp [cEval]
        · rw [h1]
          simp [cEval]
  | binop o l r ihl ihr =>
      intro vs honly hseed htopo
      have honlp : usesOnlyZI l = true ∧ usesOnlyZI r = true := by
        simpa [usesOnlyZI, Bool.and_eq_true] using honly
      obtain ⟨vs1, a1, a2, heql, hext1, hseed1, htopo1, hA1, hA2, hevL⟩ :=
        ihl vs honlp.1 hseed htopo
      obtain ⟨vs2, b1, b2, heqr, hext2, hseed2, htopo2, hB1, hB2, hevR⟩ :=
        ihr vs1 honlp.2 hseed1 htopo1
      have hA1' := eval_mono htopo1 hext2 hA1
      have hA2' := eval_mono htopo1 hext2 hA2
      have hevL2 : ∀ x y : ℚ, evalIdx vs2 x y a1 = (cEval x y l).1 ∧
          evalIdx vs2 x y a2 = (cEval x y l).2 := fun x y =>
        ⟨(hA1'.2 x y).trans (hevL x y).1, (hA2'.2 x y).trans (hevL x y).2⟩
      cases o with
      | add =>
          obtain ⟨ext3, topo3, lt3, ev3⟩ := add_spec vs2 a1 b1 htopo2 hA1'.1 hB1
          have hA2'' := eval_mono htopo2 ext3 hA2'.1
          have hB2'' := eval_mono htopo2 ext3 hB2
          obtain ⟨ext4, topo4, lt4, ev4⟩ :=
            add_spec (add vs2 a1 b1).1 a2 b2 topo3 hA2''.1 hB2''.1
          have heq : lower vs (Expr.binop Op.add l r)
              = Except.ok ((add (add vs2 a1 b1).1 a2 b2).1,
                  ((add vs2 a1 b1).2, (add (add vs2 a1 b1).1 a2 b2).2)) := by
            simp only [lower]
            rw [heql]
            dsimp only
            rw [heqr]
          refine ⟨_, _, _, heq,
            ext_trans hext1 (ext_trans hext2 (ext_trans ext3 ext4)),
            seeded_ext hseed2 (ext_trans ext3 ext4),
            topo4, lt_of_lt_of_le lt3 (le_ext ext4), lt4, fun x y => ?_⟩
          constructor
          · rw [(eval_mono topo3 ext4 lt3).2 x y, ev3 x y,
              (hevL2 x y).1, (hevR x y).1]
            rfl
          · rw [ev4 x y, hA2''.2 x y, hB2''.2 x y, hA2'.2 x y,
              (hevL x y).2, (hevR x y).2]
            rfl
      | sub =>
          obtain ⟨ext3, topo3, lt3, ev3⟩ := sub_spec vs2 a1 b1 htopo2 hA1'.1 hB1
          have hA2'' := eval_mono htopo2 ext3 hA2'.1
          have hB2'' := eval_mono htopo2 ext3 hB2
          obtain ⟨ext4, topo4, lt4, ev4⟩ :=
            sub_spec (sub vs2 a1 b1).1 a2 b2 topo3 hA2''.1 hB2''.1
          have heq : lower vs (Expr.binop Op.sub l r)
              = Except.ok ((sub (sub vs2 a1 b1).1 a2 b2).1,
                  ((sub vs2 a1 b1).2, (sub (sub vs2 a1 b1).1 a2 b2).2)) := by
            simp only [lower]
            rw [heql]
            dsimp only
            rw [heqr]
          refine ⟨_, _, _, heq,
            ext_trans hext1 (ext_trans hext2 (ext_trans ext3 ext4)),
            seeded_ext hseed2 (ext_trans ext3 ext4),
            topo4, lt_of_lt_of_le lt3 (le_ext ext4), lt4, fun x y => ?_⟩
          constructor
          · rw [(eval_mono topo3 ext4 lt3).2 x y, ev3 x y,
              (hevL2 x y).1, (hevR x y).1]
            rfl
          · rw [ev4 x y, hA2''.2 x y, hB2''.2 x y, hA2'.2 x y,
              (hevL x y).2, (hevR x y).2]
            rfl
      | mul =>
          obtain ⟨ext3, topo3, lt3, ev3⟩ := mul_spec vs2 a1 b1 htopo2 hA1'.1 hB1
          have tA1_3 := eval_mono htopo2 ext3 hA1'.1
          have tA2_3 := eval_mono htopo2 ext3 hA2'.1
          have tB1_3 := eval_mono htopo2 ext3 hB1
          have tB2_3 := eval_mono htopo2 ext3 hB2
          obtain ⟨ext4, topo4, lt4, ev4⟩ :=
            mul_spec (mul vs2 a1 b1).1 a2 b2 topo3 tA2_3.1 tB2_3.1
          have t3_4 := eval_mono topo3 ext4 lt3
          have tA1_4 := eval_mono topo3 ext4 tA1_3.1
          have tA2_4 := eval_mono topo3 ext4 tA2_3.1
          have tB1_4 := eval_mono topo3 ext4 tB1_3.1
          have tB2_4 := eval_mono topo3 ext4 tB2_3.1
          obtain ⟨ext5, topo5, lt5, ev5⟩ :=
            sub_spec (mul (mul vs2 a1 b1).1 a2 b2).1 (mul vs2 a1 b1).2
              (mul (mul vs2 a1 b1).1 a2 b2).2 topo4 t3_4.1 lt4
          have tA1_5 := eval_mono topo4 ext5 tA1_4.1
          have tA2_5 := eval_mono topo4 ext5 tA2_4.1
          have tB1_5 := eval_mono topo4 ext5 tB1_4.1
          have tB2_5 := eval_mono topo4 ext5 tB2_4.1
          obtain ⟨ext6, topo6, lt6, ev6⟩ :=
            mul_spec (sub (mul (mul vs2 a1 b1).1 a2 b2).1 (mul vs2 a1 b1).2
              (mul (mul vs2 a1 b1).1 a2 b2).2).1 a1 b2 topo5 tA1_5.1 tB2_5.1
          have tA2_6 := eval_mono topo5 ext6 tA2_5.1
          have tB1_6 := eval_mono topo5 ext6 tB1_5.1
          obtain ⟨ext7, topo7, lt7, ev7⟩ :=
            mul_spec (mul (sub (mul (mul vs2 a1 b1).1 a2 b2).1 (mul vs2 a1 b1).2
              (mul (mul vs2 a1 b1).1 a2 b2).2).1 a1 b2).1 a2 b1 topo6 tA2_6.1 tB1_6.1
          have t6_7 := eval_mono topo6 ext7 lt6
          obtain ⟨ext8, topo8, lt8, ev8⟩ :=
            add_spec (mul (mul (sub (mul (mul vs2 a1 b1).1 a2 b2).1 (mul vs2 a1 b1).2
                (mul (mul vs2 a1 b1).1 a2 b2).2).1 a1 b2).1 a2 b1).1
              (mul (sub (mul (mul vs2 a1 b1).1 a2 b2).1 (mul vs2 a1 b1).2
                (mul (mul vs2 a1 b1).1 a2 b2).2).1 a1 b2).2
              (mul (mul (sub (mul (mul vs2 a1 b1).1 a2 b2).1 (mul vs2 a1 b1).2
                (mul (mul vs2 a1 b1).1 a2 b2).2).1 a1 b2).1 a2 b1).2
              topo7 t6_7.1 lt7
          have t5_8 := eval_mono topo5 (ext_trans ext6 (ext_trans ext7 ext8)) lt5
          have heq : lower vs (Expr.binop Op.mul l r)
              = (let p3 := mul vs2 a1 b1
                 let p4 := mul p3.1 a2 b2
                 let p5 := sub p4.1 p3.2 p4.2
                 let p6 := mul p5.1 a1 b2
                 let p7 := mul p6.1 a2 b1
                 let p8 := add p7.1 p6.2 p7.2
                 Except.ok (p8.1, (p5.2, p8.2))) := by
            simp only [lower]
            rw [heql]
            dsimp only
            rw [heqr]
          refine ⟨_, _, _, heq,
            ext_trans hext1 (ext_trans hext2 (ext_trans ext3 (ext_trans ext4
              (ext_trans ext5 (ext_trans ext6 (ext_trans ext7 ext8)))))),
            seeded_ext hseed2 (ext_trans ext3 (ext_trans ext4
              (ext_trans ext5 (ext_trans ext6 (ext_trans ext7 ext8))))),
            topo8, t5_8.1, lt8, fun x y => ?_⟩
          constructor
          · rw [t5_8.2 x y, ev5 x y, t3_4.2 x y, ev3 x y, ev4 x y,
              tA2_3.2 x y, tB2_3.2 x y, (hevL2 x y).1, (hevR x y).1,
              hA2'.2 x y, (hevL x y).2, (hevR x y).2]
            rfl
          · rw [ev8 x y, t6_7.2 x y, ev6 x y, ev7 x y,
              tA1_5.2 x y, tB2_5.2 x y, tA1_4.2 x y, tB2_4.2 x y,
              tA1_3.2 x y, tB2_3.2 x y,
              tA2_6.2 x y, tB1_6.2 x y, tA2_5.2 x y, tB1_5.2 x y,
              tA2_4.2 x y, tB1_4.2 x y, tA2_3.2 x y, tB1_3.2 x y,
              (hevL2 x y).1, (hevR x y).2, hA2'.2 x y, (hevL x y).2, (hevR x y).1]
            rfl
      | div =>
          rcases hP3 : mul vs2 b1 b1 with ⟨vs3, i3⟩
          have S3 := mul_spec vs2 b1 b1 htopo2 hB1 hB1
          rw [hP3] at S3
          obtain ⟨ext3, topo3, lt3, ev3⟩ := S3
          have A1_3 := eval_mono htopo2 ext3 hA1'.1
          have A2_3 := eval_mono htopo2 ext3 hA2'.1
          have B1_3 := eval_mono htopo2 ext3 hB1
          have B2_3 := eval_mono htopo2 ext3 hB2
          rcases hP4 : mul vs3 b2 b2 with ⟨vs4, i4⟩
          have S4 := mul_spec vs3 b2 b2 topo3 B2_3.1 B2_3.1
          rw [hP4] at S4
          obtain ⟨ext4, topo4, lt4, ev4⟩ := S4
          have t3_4 := eval_mono topo3 ext4 lt3
          have A1_4 := eval_mono topo3 ext4 A1_3.1
          have A2_4 := eval_mono topo3 ext4 A2_3.1
          have B1_4 := eval_mono topo3 ext4 B1_3.1
          have B2_4 := eval_mono topo3 ext4 B2_3.1
          rcases hP5 : add vs4 i3 i4 with ⟨vs5, i5⟩
          have S5 := add_spec vs4 i3 i4 topo4 t3_4.1 lt4
          rw [hP5] at S5
          obtain ⟨ext5, topo5, lt5, ev5⟩ := S5
          have A1_5 := eval_mono topo4 ext5 A1_4.1
          have A2_5 := eval_mono topo4 ext5 A2_4.1
          have B1_5 := eval_mono topo4 ext5 B1_4.1
          have B2_5 := eval_mono topo4 ext5 B2_4.1
          rcases hP6 : mul vs5 a1 b1 with ⟨vs6, i6⟩
          have S6 := mul_spec vs5 a1 b1 topo5 A1_5.1 B1_5.1
          rw [hP6] at S6
          obtain ⟨ext6, topo6, lt6, ev6⟩ := S6
          have A1_6 := eval_mono topo5 ext6 A1_5.1
          have A2_6 := eval_mono topo5 ext6 A2_5.1
          have B1_6 := eval_mono topo5 ext6 B1_5.1
          have B2_6 := eval_mono topo5 ext6 B2_5.1
          have T_6 := eval_mono topo5 ext6 lt5
          rcases hP7 : mul vs6 a2 b2 with ⟨vs7, i7⟩
          have S7 := mul_spec vs6 a2 b2 topo6 A2_6.1 B2_6.1
          rw [hP7] at S7
          obtain ⟨ext7, topo7, lt7, ev7⟩ := S7
          have t6_7 := eval_mono topo6 ext7 lt6
          have A1_7 := eval_mono topo6 ext7 A1_6.1
          have A2_7 := eval_mono topo6 ext7 A2_6.1
          have B1_7 := eval_mono topo6 ext7 B1_6.1
          have B2_7 := eval_mono topo6 ext7 B2_6.1
          have T_7 := eval_mono topo6 ext7 T_6.1
          rcases hP8 : add vs7 i6 i7 with ⟨vs8, i8⟩
          have S8 := add_spec vs7 i6 i7 topo7 t6_7.1 lt7
          rw [hP8] at S8
          obtain ⟨ext8, topo8, lt8, ev8⟩ := S8
          have A1_8 := eval_mono topo7 ext8 A1_7.1
          have A2_8 := eval_mono topo7 ext8 A2_7.1
          have B1_8 := eval_mono topo7 ext8 B1_7.1
          have B2_8 := eval_mono topo7 ext8 B2_7.1
          have T_8 := eval_mono topo7 ext8 T_7.1
          rcases hP9 : div vs8 i8 i5 with ⟨vs9, i9⟩
          have S9 := div_spec vs8 i8 i5 topo8 lt8 T_8.1
          rw [hP9] at S9
          obtain ⟨ext9, topo9, lt9, ev9⟩ := S9
          have A1_9 := eval_mono topo8 ext9 A1_8.1
          have A2_9 := eval_mono topo8 ext9 A2_8.1
          have B1_9 := eval_mono topo8 ext9 B1_8.1
          have B2_9 := eval_mono topo8 ext9 B2_8.1
          have T_9 := eval_mono topo8 ext9 T_8.1
          rcases hP10 : mul vs9 a2 b1 with ⟨vs10, i10⟩
          have S10 := mul_spec vs9 a2 b1 topo9 A2_9.1 B1_9.1
          rw [hP10] at S10
          obtain ⟨ext10, topo10, lt10, ev10⟩ := S10
          have A1_10 := eval_mono topo9 ext10 A1_9.1
          have B2_10 := eval_mono topo9 ext10 B2_9.1
          have T_10 := eval_mono topo9 ext10 T_9.1
          have RE_10 := eval_mono topo9 ext10 lt9
          rcases hP11 : mul vs10 a1 b2 with ⟨vs11, i11⟩
          have S11 := mul_spec vs10 a1 b2 topo10 A1_10.1 B2_10.1
          rw [hP11] at S11
          obtain ⟨ext11, topo11, lt11, ev11⟩ := S11
          have t10_11 := eval_mono topo10 ext11 lt10
          have T_11 := eval_mono topo10 ext11 T_10.1
          have RE_11 := eval_mono topo10 ext11 RE_10.1
          rcases hP12 : sub vs11 i10 i11 with ⟨vs12, i12⟩
          have S12 := sub_spec vs11 i10 i11 topo11 t10_11.1 lt11
          rw [hP12] at S12
          obtain ⟨ext12, topo12, lt12, ev12⟩ := S12
          have T_12 := eval_mono topo11 ext12 T_11.1
          have RE_12 := eval_mono topo11 ext12 RE_11.1
          rcases hP13 : div vs12 i12 i5 with ⟨vs13, i13⟩
          have S13 := div_spec vs12 i12 i5 topo12 lt12 T_12.1
          rw [hP13] at S13
          obtain ⟨ext13, topo13, lt13, ev13⟩ := S13
          have RE_13 := eval_mono topo12 ext13 RE_12.1
          have heq : lower vs (Expr.binop Op.div l r)
              = Except.ok (vs13, (i9, i13)) := by
            simp only [lower]
            rw [heql]
            dsimp only
            rw [heqr]
            dsimp only
            rw [hP3]
            dsimp only
            rw [hP4]
            dsimp only
            rw [hP5]
            dsimp only
            rw [hP6]
            dsimp only
            rw [hP7]
            dsimp only
            rw [hP8]
            dsimp only
            rw [hP9]
            dsimp only
            rw [hP10]
            dsimp only
            rw [hP11]
            dsimp only
            rw [hP12]
            dsimp only
            rw [hP13]
          have extAll : ∃ ws, vs13 = vs ++ ws :=
            ext_trans hext1 (ext_trans hext2 (ext_trans ext3 (ext_trans ext4
              (ext_trans ext5 (ext_trans ext6 (ext_trans ext7 (ext_trans ext8
                (ext_trans ext9 (ext_trans ext10 (ext_trans ext11
                  (ext_trans ext12 ext13)))))))))))
          refine ⟨vs13, i9, i13, heq, extAll,
            seeded_ext hseed2 (ext_trans ext3 (ext_trans ext4
              (ext_trans ext5 (ext_trans ext6 (ext_trans ext7 (ext_trans ext8
                (ext_trans ext9 (ext_trans ext10 (ext_trans ext11
                  (ext_trans ext12 ext13)))))))))),
            topo13, RE_13.1, lt13, fun x y => ?_⟩
          constructor
          · rw [RE_13.2 x y, RE_12.2 x y, RE_11.2 x y, RE_10.2 x y, ev9 x y,
              ev8 x y, t6_7.2 x y, ev6 x y, ev7 x y,
              A1_5.2 x y, A1_4.2 x y, A1_3.2 x y,
              B1_5.2 x y, B1_4.2 x y, B1_3.2 x y,
              A2_6.2 x y, A2_5.2 x y, A2_4.2 x y, A2_3.2 x y,
              B2_6.2 x y, B2_5.2 x y, B2_4.2 x y, B2_3.2 x y,
              T_8.2 x y, T_7.2 x y, T_6.2 x y, ev5 x y, t3_4.2 x y,
              ev3 x y, ev4 x y, B2_3.2 x y,
              (hevL2 x y).1, (hevR x y).1, hA2'.2 x y, (hevL x y).2, (hevR x y).2]
            rfl
          · rw [ev13 x y, ev12 x y, t10_11.2 x y, ev10 x y, ev11 x y,
              A2_9.2 x y, A2_8.2 x y, A2_7.2 x y, A2_6.2 x y, A2_5.2 x y,
              A2_4.2 x y, A2_3.2 x y,
              B1_9.2 x y, B1_8.2 x y, B1_7.2 x y, B1_6.2 x y, B1_5.2 x y,
              B1_4.2 x y, B1_3.2 x y,
              A1_10.2 x y, A1_9.2 x y, A1_8.2 x y, A1_7.2 x y, A1_6.2 x y,
              A1_5.2 x y, A1_4.2 x y, A1_3.2 x y,
              B2_10.2 x y, B2_9.2 x y, B2_8.2 x y, B2_7.2 x y, B2_6.2 x y,
              B2_5.2 x y, B2_4.2 x y, B2_3.2 x y,
              T_12.2 x y, T_11.2 x y, T_10.2 x y, T_9.2 x y, T_8.2 x y,
              T_7.2 x y, T_6.2 x y, ev5 x y, t3_4.2 x y, ev3 x y, ev4 x y,
              B2_3.2 x y,
              (hevL2 x y).1, (hevR x y).1, hA2'.2 x y, (hevL x y).2, (hevR x y).2]
            rfl

/-! ### No-duplicates invariant (structural uniqueness by interning) -/

theorem num_nodup (vs : List Value) (s : String) (h : vs.Nodup) :
    (num vs s).1.Nodup := valueToIndex_nodup vs (Value.number s) h

theorem opV_nodup (vs : List Value) (o : Op) (a b : Nat) (h : vs.Nodup) :
    (opV vs o a b).1.Nodup := valueToIndex_nodup vs (Value.binop o a b) h

theorem add_nodup (vs : List Value) (a b : Nat) (h : vs.Nodup) :
    (add vs a b).1.Nodup := by
  unfold add
  repeat' split
  all_goals first
    | exact h
    | exact valueToIndex_nodup _ _ h

theorem sub_nodup (vs : List Value) (a b : Nat) (h : vs.Nodup) :
    (sub vs a b).1.Nodup := by
  unfold sub
  repeat' split
  all_goals first
    | exact h
    | exact valueToIndex_nodup _ _ h

theorem mul_nodup (vs : List Value) (a b : Nat) (h : vs.Nodup) :
    (mul vs a b).1.Nodup := by
  unfold mul
  repeat' split
  all_goals first
    | exact h
    | exact valueToIndex_nodup _ _ h

theorem div_nodup (vs : List Value) (a b : Nat) (h : vs.Nodup) :
    (div vs a b).1.Nodup := by
  unfold div
  repeat' split
  all_goals first
    | exact h
    | exact valueToIndex_nodup _ _ h

set_option maxHeartbeats 1600000 in
/-- Lowering preserves structural uniqueness of the value table:
entries only enter through the interning scan. -/
theorem lower_nodup (e : Expr) : ∀ (vs : List Value) (out : List Value × (Nat × Nat)),
    vs.Nodup → lower vs e = Except.ok out → out.1.Nodup := by
  induction e with
  | number v =>
      intro vs out h heq
      injection heq with h2
      subst h2
      exact num_nodup _ _ (num_nodup _ _ h)
  | name id =>
      intro vs out h heq
      by_cases hi : id = "i"
      · subst hi
        rw [show lower vs (Expr.name "i")
            = Except.ok ((num (num vs "0").1 "1").1,
              ((num vs "0").2, (num (num vs "0").1 "1").2)) from by
          simp only [lower]; rfl] at heq
        injection heq with h2
        subst h2
        exact num_nodup _ _ (num_nodup _ _ h)
      · by_cases hz : id = "z"
        · subst hz
          rw [show lower vs (Expr.name "z") = Except.ok (vs, (0, 1)) from by
            simp only [lower]; rfl] at heq
          injection heq with h2
          subst h2
          exact h
        · rw [show lower vs (Expr.name id)
              = Except.error (CompileError.undefinedVariable id) from by
            simp only [lower]; rw [if_neg hi, if_pos hz]] at heq
          exact Except.noConfusion heq
  | binop o l r ihl ihr =>
      intro vs out h heq
      cases o with
      | add =>
          simp only [lower] at heq
          cases hl : lower vs l with
          | error err => rw [hl] at heq; exact Except.noConfusion heq
          | ok outl =>
              rcases outl with ⟨vs1, a1, a2⟩
              rw [hl] at heq
              dsimp only at heq
              cases hr : lower vs1 r with
              | error err => rw [hr] at heq; exact Except.noConfusion heq
              | ok outr =>
                  rcases outr with ⟨vs2, b1, b2⟩
                  rw [hr] at heq
                  dsimp only at heq
                  injection heq with h2
                  subst h2
                  have h2nd : vs2.Nodup :=
                    ihr vs1 (vs2, (b1, b2)) (ihl vs (vs1, (a1, a2)) h hl) hr
                  exact add_nodup _ _ _ (add_nodup _ _ _ h2nd)
      | sub =>
          simp only [lower] at heq
          cases hl : lower vs l with
          | error err => rw [hl] at heq; exact Except.noConfusion heq
          | ok outl =>
              rcases outl with ⟨vs1, a1, a2⟩
              rw [hl] at heq
              dsimp only at heq
              cases hr : lower vs1 r with
              | error err => rw [hr] at heq; exact Except.noConfusion heq
              | ok outr =>
                  rcases outr with ⟨vs2, b1, b2⟩
                  rw [hr] at heq
                  dsimp only at heq
                  injection heq with h2
                  subst h2
                  have h2nd : vs2.Nodup :=
                    ihr vs1 (vs2, (b1, b2)) (ihl vs (vs1, (a1, a2)) h hl) hr
                  exact sub_nodup _ _ _ (sub_nodup _ _ _ h2nd)
      | mul =>
          simp only [lower] at heq
          cases hl : lower vs l with
          | error err => rw [hl] at heq; exact Except.noConfusion heq
          | ok outl =>
              rcases outl with ⟨vs1, a1, a2⟩
              rw [hl] at heq
              dsimp only at heq
              cases hr : lower vs1 r with
              | error err => rw [hr] at heq; exact Except.noConfusion heq
              | ok outr =>
                  rcases outr with ⟨vs2, b1, b2⟩
                  rw [hr] at heq
                  dsimp only at heq
                  injection heq with h2
                  subst h2
                  have h2nd : vs2.Nodup :=
                    ihr vs1 (vs2, (b1, b2)) (ihl vs (vs1, (a1, a2)) h hl) hr
                  exact add_nodup _ _ _ (mul_nodup _ _ _ (mul_nodup _ _ _
                    (sub_nodup _ _ _ (mul_nodup _ _ _ (mul_nodup _ _ _ h2nd)))))
      | div =>
          simp only [lower] at heq
          cases hl : lower vs l with
          | error err => rw [hl] at heq; exact Except.noConfusion heq
          | ok outl =>
              rcases outl with ⟨vs1, a1, a2⟩
              rw [hl] at heq
              dsimp only at heq
              cases hr : lower vs1 r with
              | error err => rw [hr] at heq; exact Except.noConfusion heq
              | ok outr =>
                  rcases outr with ⟨vs2, b1, b2⟩
                  rw [hr] at heq
                  dsimp only at heq
                  have h2nd : vs2.Nodup :=
                    ihr vs1 (vs2, (b1, b2)) (ihl vs (vs1, (a1, a2)) h hl) hr
                  rcases hP3 : mul vs2 b1 b1 with ⟨vs3, i3⟩
                  rw [hP3] at heq
                  dsimp only at heq
                  rcases hP4 : mul vs3 b2 b2 with ⟨vs4, i4⟩
                  rw [hP4] at heq
                  dsimp only at heq
                  rcases hP5 : add vs4 i3 i4 with ⟨vs5, i5⟩
                  rw [hP5] at heq
                  dsimp only at heq
                  rcases hP6 : mul vs5 a1 b1 with ⟨vs6, i6⟩
                  rw [hP6] at heq
                  dsimp only at heq
                  rcases hP7 : mul vs6 a2 b2 with ⟨vs7, i7⟩
                  rw [hP7] at heq
                  dsimp only at heq
                  rcases hP8 : add vs7 i6 i7 with ⟨vs8, i8⟩
                  rw [hP8] at heq
                  dsimp only at heq
                  rcases hP9 : div vs8 i8 i5 with ⟨vs9, i9⟩
                  rw [hP9] at heq
                  dsimp only at heq
                  rcases hP10 : mul vs9 a2 b1 with ⟨vs10, i10⟩
                  rw [hP10] at heq
                  dsimp only at heq
                  rcases hP11 : mul vs10 a1 b2 with ⟨vs11, i11⟩
                  rw [hP11] at heq
                  dsimp only at heq
                  rcases hP12 : sub vs11 i10 i11 with ⟨vs12, i12⟩
                  rw [hP12] at heq
                  dsimp only at heq
                  rcases hP13 : div vs12 i12 i5 with ⟨vs13, i13⟩
                  rw [hP13] at heq
                  injection heq with h2
                  subst h2
                  have n3 : vs3.Nodup := by
                    have := mul_nodup vs2 b1 b1 h2nd; rw [hP3] at this; exact this
                  have n4 : vs4.Nodup := by
                    have := mul_nodup vs3 b2 b2 n3; rw [hP4] at this; exact this
                  have n5 : vs5.Nodup := by
                    have := add_nodup vs4 i3 i4 n4; rw [hP5] at this; exact this
                  have n6 : vs6.Nodup := by
                    have := mul_nodup vs5 a1 b1 n5; rw [hP6] at this; exact this
                  have n7 : vs7.Nodup := by
                    have := mul_nodup vs6 a2 b2 n6; rw [hP7] at this; exact this
                  have n8 : vs8.Nodup := by
                    have := add_nodup vs7 i6 i7 n7; rw [hP8] at this; exact this
                  have n9 : vs9.Nodup := by
                    have := div_nodup vs8 i8 i5 n8; rw [hP9] at this; exact this
                  have n10 : vs10.Nodup := by
                    have := mul_nodup vs9 a2 b1 n9; rw [hP10] at this; exact this
                  have n11 : vs11.Nodup := by
                    have := mul_nodup vs10 a1 b2 n10; rw [hP11] at this; exact this
                  have n12 : vs12.Nodup := by
                    have := sub_nodup vs11 i10 i11 n11; rw [hP12] at this; exact this
                  have n13 : vs13.Nodup := by
                    have := div_nodup vs12 i12 i5 n12; rw [hP13] at this; exact this
                  exact n13

/-! ### Error behaviour of lowering -/

/-- Does the identifier `w` occur in the formula? -/
def occursName (w : String) : Expr → Bool
| Expr.number _ => false
| Expr.name id => id == w
| Expr.binop _ l r => occursName w l || occursName w r

/-- The first identifier, in the evaluation order of `lower` (leftmost
innermost), that is neither `z` nor `i` — the variable the thrown error
names. -/
def firstBadName : Expr → Option String
| Expr.number _ => none
| Expr.name id => if id = "i" then none else if id ≠ "z" then some id else none
| Expr.binop _ l r =>
    match firstBadName l with
    | some w => some w
    | none => firstBadName r

theorem firstBadName_props {w : String} :
    ∀ e : Expr, firstBadName e = some w →
      (w == "z") = false ∧ (w == "i") = false ∧ occursName w e = true := by
  intro e
  induction e with
  | number v => intro h; simp [firstBadName] at h
  | name id =>
      intro h
      by_cases hi : id = "i"
      · simp [firstBadName, hi] at h
      · by_cases hz : id = "z"
        · simp [firstBadName, hi, hz] at h
        · simp [firstBadName, hi, hz] at h
          subst h
          simp [occursName, hz, hi]
  | binop o l r ihl ihr =>
      intro h
      simp only [firstBadName] at h
      cases hfl : firstBadName l with
      | some w1 =>
          rw [hfl] at h
          dsimp only at h
          injection h with h2
          subst h2
          obtain ⟨h1, h2, h3⟩ := ihl hfl
          exact ⟨h1, h2, by simp [occursName, h3]⟩
      | none =>
          rw [hfl] at h
          dsimp only at h
          obtain ⟨h1, h2, h3⟩ := ihr h
          exact ⟨h1, h2, by simp [occursName, h3]⟩

theorem firstBadName_none_of_onlyZI :
    ∀ e : Expr, usesOnlyZI e = true → firstBadName e = none := by
  intro e
  induction e with
  | number v => intro _; rfl
  | name id =>
      intro h
      simp [usesOnlyZI] at h
      rcases h with h | h <;> simp [firstBadName, h]
  | binop o l r ihl ihr =>
      intro h
      simp [usesOnlyZI, Bool.and_eq_true] at h
      simp [firstBadName, ihl h.1, ihr h.2]

theorem usesOnlyZI_false_bad :
    ∀ e : Expr, usesOnlyZI e = false → ∃ w, firstBadName e = some w := by
  intro e
  induction e with
  | number v => intro h; simp [usesOnlyZI] at h
  | name id =>
      intro h
      simp [usesOnlyZI] at h
      exact ⟨id, by simp [firstBadName, h.1, h.2]⟩
  | binop o l r ihl ihr =>
      intro h
      by_cases hl : usesOnlyZI l = true
      · have hr : usesOnlyZI r = false := by
          cases hreq : usesOnlyZI r
          · rfl
          · rw [show usesOnlyZI (Expr.binop o l r) = (usesOnlyZI l && usesOnlyZI r)
              from rfl, hl, hreq] at h
            exact Bool.noConfusion h
        obtain ⟨w, hw⟩ := ihr hr
        exact ⟨w, by simp [firstBadName, firstBadName_none_of_onlyZI l hl, hw]⟩
      · obtain ⟨w, hw⟩ := ihl (Bool.not_eq_true _ ▸ Bool.eq_false_iff.mpr hl)
        exact ⟨w, by simp [firstBadName, hw]⟩


/-- A formula with no bad name always lowers successfully. -/
theorem lower_total : ∀ (e : Expr) (vs : List Value), firstBadName e = none →
    ∃ out, lower vs e = Except.ok out := by
  intro e
  induction e with
  | number v => intro vs _; exact ⟨_, rfl⟩
  | name id =>
      intro vs h
      by_cases hi : id = "i"
      · subst hi
        exact ⟨((num (num vs "0").1 "1").1,
          ((num vs "0").2, (num (num vs "0").1 "1").2)), by simp only [lower]; rfl⟩
      · by_cases hz : id = "z"
        · subst hz
          exact ⟨(vs, (0, 1)), by simp only [lower]; rfl⟩
        · simp [firstBadName, hi, hz] at h
  | binop o l r ihl ihr =>
      intro vs h
      simp only [firstBadName] at h
      have hfl : firstBadName l = none := by
        cases hfl' : firstBadName l with
        | some w => rw [hfl'] at h; exact Option.noConfusion h
        | none => rfl
      rw [hfl] at h
      dsimp only at h
      obtain ⟨⟨vs1, a1, a2⟩, hl⟩ := ihl vs hfl
      obtain ⟨⟨vs2, b1, b2⟩, hr⟩ := ihr vs1 h
      cases o <;>
        exact ⟨_, by simp only [lower]; rw [hl]; dsimp only; rw [hr]; try rfl⟩

/-- A formula whose first bad name is `w` makes `lower` throw
`undefined variable: w`, whatever the current table is. -/
theorem lower_error {w : String} :
    ∀ (e : Expr) (vs : List Value), firstBadName e = some w →
      lower vs e = Except.error (CompileError.undefinedVariable w) := by
  intro e
  induction e with
  | number v => intro vs h; simp [firstBadName] at h
  | name id =>
      intro vs h
      by_cases hi : id = "i"
      · simp [firstBadName, hi] at h
      · by_cases hz : id = "z"
        · simp [firstBadName, hi, hz] at h
        · simp [firstBadName, hi, hz] at h
          subst h
          simp only [lower]
          rw [if_neg hi, if_pos hz]
  | binop o l r ihl ihr =>
      intro vs h
      simp only [firstBadName] at h
      cases hfl : firstBadName l with
      | some w1 =>
          rw [hfl] at h
          dsimp only at h
          injection h with h2
          subst h2
          cases o <;> (simp only [lower]; rw [ihl vs hfl])
      | none =>
          rw [hfl] at h
          dsimp only at h
          obtain ⟨⟨vs1, a1, a2⟩, hl⟩ := lower_total l vs hfl
          cases o <;> (simp only [lower]; rw [hl]; dsimp only; rw [ihr vs1 h])

/-- Only formulas over `z` and `i` are accepted: a successful lowering
implies there was no other identifier. -/
theorem lower_ok_onlyZI : ∀ (e : Expr) (vs : List Value)
    (out : List Value × (Nat × Nat)), lower vs e = Except.ok out →
    usesOnlyZI e = true := by
  intro e
  induction e with
  | number v => intro vs out _; rfl
  | name id =>
      intro vs out h
      by_cases hi : id = "i"
      · simp [usesOnlyZI, hi]
      · by_cases hz : id = "z"
        · simp [usesOnlyZI, hz]
        · rw [show lower vs (Expr.name id)
              = Except.error (CompileError.undefinedVariable id) from by
            simp only [lower]; rw [if_neg hi, if_pos hz]] at h
          exact Except.noConfusion h
  | binop o l r ihl ihr =>
      intro vs out h
      cases o
      all_goals simp only [lower] at h
      all_goals
        cases hl : lower vs l with
        | error err => rw [hl] at h; exact Except.noConfusion h
        | ok outl =>
            rcases outl with ⟨vs1, a1, a2⟩
            rw [hl] at h
            dsimp only at h
            cases hr : lower vs1 r with
            | error err => rw [hr] at h; exact Except.noConfusion h
            | ok outr =>
                rcases outr with ⟨vs2, b1, b2⟩
                simp only [usesOnlyZI, Bool.and_eq_true]
                exact ⟨ihl vs _ hl, ihr vs1 _ hr⟩

/-! ### Use-count analysis -/

theorem getD_append_zero (cs : List Nat) (j : Nat) :
    (cs ++ [0]).getD j 0 = cs.getD j 0 := by
  rw [List.getD_eq_getElem?_getD, List.getD_eq_getElem?_getD, List.getElem?_append]
  by_cases hj : j < cs.length
  · rw [if_pos hj]
  · rw [if_neg hj, List.getElem?_eq_none (show cs.length ≤ j by omega)]
    cases hk : j - cs.length with
    | zero => rfl
    | succ n => rfl

theorem bumpAt_length (cs : List Nat) (i : Nat) : (bumpAt cs i).length = cs.length := by
  simp [bumpAt]

theorem bumpAt_getD {cs : List Nat} {i : Nat} (hi : i < cs.length) (j : Nat) :
    (bumpAt cs i).getD j 0 = cs.getD j 0 + (if i = j then 1 else 0) := by
  unfold bumpAt
  by_cases hij : i = j
  · subst hij
    rw [List.getD_eq_getElem?_getD, List.getElem?_set_eq_of_lt _ hi]
    simp
  · rw [List.getD_eq_getElem?_getD, List.getElem?_set_ne hij,
      ← List.getD_eq_getElem?_getD]
    simp [hij]

theorem useCountStep_length (counts : List Nat) (v : Value) :
    (useCountStep counts v).length = counts.length + 1 := by
  cases v <;> simp [useCountStep, bumpAt_length]

theorem operandUses_cons (v : Value) (tail : List Value) (j : Nat) :
    operandUses (v :: tail) j = binContrib j v + operandUses tail j := by
  simp [operandUses]

theorem useCountStep_getD (counts : List Nat) (v : Value)
    (hv : ∀ o a b, v = Value.binop o a b → a < counts.length ∧ b < counts.length)
    (j : Nat) :
    (useCountStep counts v).getD j 0 = counts.getD j 0 + binContrib j v := by
  cases v with
  | arg s =>
      show (counts ++ [0]).getD j 0 = counts.getD j 0 + binContrib j (Value.arg s)
      rw [getD_append_zero]
      rfl
  | number t =>
      show (counts ++ [0]).getD j 0 = counts.getD j 0 + binContrib j (Value.number t)
      rw [getD_append_zero]
      rfl
  | binop o a b =>
      obtain ⟨ha, hb⟩ := hv o a b rfl
      have ha' : a < (counts ++ [0]).length := by simp; omega
      have hb' : b < (bumpAt (counts ++ [0]) a).length := by
        rw [bumpAt_length]; simp; omega
      show (bumpAt (bumpAt (counts ++ [0]) a) b).getD j 0 = _
      rw [bumpAt_getD hb' j, bumpAt_getD ha' j, getD_append_zero]
      show _ = counts.getD j 0 + ((if a = j then 1 else 0) + (if b = j then 1 else 0))
      omega

theorem useCounts_loop : ∀ (tail : List Value) (counts : List Nat),
    (∀ k o a b, tail.get? k = some (Value.binop o a b) →
      a < counts.length + k ∧ b < counts.length + k) →
    ∀ j, (List.foldl useCountStep counts tail).getD j 0
      = counts.getD j 0 + operandUses tail j := by
  intro tail
  induction tail with
  | nil => intro counts _ j; simp [operandUses]
  | cons v tail ih =>
      intro counts hc j
      have hv : ∀ o a b, v = Value.binop o a b →
          a < counts.length ∧ b < counts.length := by
        intro o a b hveq
        have := hc 0 o a b (by rw [hveq]; rfl)
        simpa using this
      have hc' : ∀ k o a b, tail.get? k = some (Value.binop o a b) →
          a < (useCountStep counts v).length + k ∧
            b < (useCountStep counts v).length + k := by
        intro k o a b hk
        have := hc (k + 1) o a b hk
        rw [useCountStep_length]
        omega
      calc (List.foldl useCountStep counts (v :: tail)).getD j 0
          = (List.foldl useCountStep (useCountStep counts v) tail).getD j 0 := rfl
        _ = (useCountStep counts v).getD j 0 + operandUses tail j := ih _ hc' j
        _ = counts.getD j 0 + operandUses (v :: tail) j := by
            rw [useCountStep_getD counts v hv j, operandUses_cons]
            omega

/-- The loop in `computeUseCounts` computes, for each index, exactly the
number of its occurrences as an operand of a binary entry. -/
theorem computeUseCounts_spec (vs : List Value) (h : TopoOK vs) (j : Nat) :
    (computeUseCounts vs).getD j 0 = operandUses vs j := by
  have := useCounts_loop vs []
    (by intro k o a b hk; simpa using h k o a b hk) j
  simpa [computeUseCounts] using this

/-! ### Concrete evaluations -/

theorem numVal_digit_str (s : String) (h : ∀ c ∈ s.data, c ∈ digitChars) :
    numVal s = strToNatAux s.data := by
  unfold numVal
  rw [numValChars_digits _ h, numValPos_digits _ h]

theorem numVal_two : numVal "2" = 2 := by
  rw [numVal_digit_str "2" (by decide),
    show strToNatAux ("2" : String).data = 2 from by decide]
  norm_num

theorem numVal_three : numVal "3" = 3 := by
  rw [numVal_digit_str "3" (by decide),
    show strToNatAux ("3" : String).data = 3 from by decide]
  norm_num

theorem jsString_six : jsString 6 = "6" := by
  have hden : (6 : ℚ).den = 1 := by norm_num
  have hnum : (6 : ℚ).num = 6 := by norm_num
  unfold jsString
  rw [if_pos hden, hnum]
  decide

theorem fold_two_three : jsString (numVal "2" * numVal "3") = "6" := by
  rw [numVal_two, numVal_three, show (2 : ℚ) * 3 = 6 from by norm_num, jsString_six]

theorem numVal_one_point_zero : numVal "1.0" = 1 := by
  show numValChars ['1', '.', '0'] = 1
  rw [numValChars, if_neg (by decide : ¬('1' = '-'))]
  rw [show numValPos ['1', '.', '0']
      = (strToNatAux ['1'] : ℚ) + (strToNatAux ['0'] : ℚ) / (10 : ℚ) ^ 1 from rfl]
  rw [show strToNatAux ['1'] = 1 from rfl, show strToNatAux ['0'] = 0 from rfl]
  norm_num

theorem lower_two_times_three :
    lower initialValues (Expr.binop Op.mul (Expr.number "2") (Expr.number "3"))
      = Except.ok ([Value.arg "z_re", Value.arg "z_im", Value.number "2",
          Value.number "0", Value.number "3", Value.number "6"], (5, 3)) := by
  have gen : ∀ s : String, jsString (numVal "2" * numVal "3") = s →
      lower initialValues (Expr.binop Op.mul (Expr.number "2") (Expr.number "3"))
        = (let p3 := num [Value.arg "z_re", Value.arg "z_im", Value.number "2",
              Value.number "0", Value.number "3"] s
           let p4 := mul p3.1 3 3
           let p5 := sub p4.1 p3.2 p4.2
           let p6 := mul p5.1 2 3
           let p7 := mul p6.1 3 4
           let p8 := add p7.1 p6.2 p7.2
           Except.ok (p8.1, (p5.2, p8.2))) := by
    intro s hs
    rw [← hs]
    rfl
  rw [gen "6" fold_two_three]
  rfl

theorem compile_two_times_three :
    compileToComplexFunction (Expr.binop Op.mul (Expr.number "2") (Expr.number "3"))
      = Except.ok "return \x7bre: 6, im: 0\x7d;\n" := by
  unfold compileToComplexFunction
  rw [lower_two_times_three]
  rfl

/-! ### Decidable topological check (used to discharge hypotheses at
concrete tables) -/

/-- Bounded boolean check equivalent to `TopoOK`. -/
def topoCheckB (vs : List Value) : Bool :=
  (List.range vs.length).all fun i =>
    match vs.get? i with
    | some (Value.binop _ a b) => decide (a < i) && decide (b < i)
    | _ => true

theorem topoOK_of_checkB (vs : List Value) (h : topoCheckB vs = true) :
    TopoOK vs := by
  intro i o a b hget
  by_cases hi : i < vs.length
  · have hall := List.all_eq_true.mp h i (List.mem_range.mpr hi)
    rw [hget] at hall
    simpa using hall
  · rw [List.get?_eq_none.mpr (by omega)] at hget
    exact Option.noConfusion hget

/-! ### Argument entries of lowered tables -/

/-- Every argument entry of the table is one of the two seeded
parameters `z_re` and `z_im`. Lowering interns only `number` and
`binop` values, so the property is preserved from the initial table. -/
def ArgsOK (vs : List Value) : Prop :=
  ∀ s : String, Value.arg s ∈ vs → s = "z_re" ∨ s = "z_im"

theorem argsOK_initial : ArgsOK initialValues := by
  intro s hmem
  simpa [initialValues] using hmem

theorem argsOK_append {vs : List Value} {v : Value} (h : ArgsOK vs)
    (hv : ∀ s, v = Value.arg s → s = "z_re" ∨ s = "z_im") :
    ArgsOK (vs ++ [v]) := by
  intro s hmem
  rcases List.mem_append.mp hmem with hm | hm
  · exact h s hm
  · exact hv s (List.mem_singleton.mp hm).symm

theorem valueToIndex_args (vs : List Value) (v : Value) (h : ArgsOK vs)
    (hv : ∀ s, v = Value.arg s → s = "z_re" ∨ s = "z_im") :
    ArgsOK (valueToIndex vs v).1 := by
  rcases valueToIndex_cases vs v with ⟨i, _, heq⟩ | ⟨_, heq⟩
  · rw [heq]
    exact h
  · rw [heq]
    exact argsOK_append h hv

theorem num_args (vs : List Value) (t : String) (h : ArgsOK vs) :
    ArgsOK (num vs t).1 :=
  valueToIndex_args vs (Value.number t) h (fun _ hs => Value.noConfusion hs)

theorem opV_args (vs : List Value) (o : Op) (a b : Nat) (h : ArgsOK vs) :
    ArgsOK (opV vs o a b).1 :=
  valueToIndex_args vs (Value.binop o a b) h (fun _ hs => Value.noConfusion hs)

theorem add_args (vs : List Value) (a b : Nat) (h : ArgsOK vs) :
    ArgsOK (add vs a b).1 := by
  unfold add
  repeat' split
  all_goals first
    | exact h
    | exact num_args _ _ h
    | exact opV_args _ _ _ _ h

theorem sub_args (vs : List Value) (a b : Nat) (h : ArgsOK vs) :
    ArgsOK (sub vs a b).1 := by
  unfold sub
  repeat' split
  all_goals first
    | exact h
    | exact num_args _ _ h
    | exact opV_args _ _ _ _ h

theorem mul_args (vs : List Value) (a b : Nat) (h : ArgsOK vs) :
    ArgsOK (mul vs a b).1 := by
  unfold mul
  repeat' split
  all_goals first
    | exact h
    | exact num_args _ _ h
    | exact opV_args _ _ _ _ h

theorem div_args (vs : List Value) (a b : Nat) (h : ArgsOK vs) :
    ArgsOK (div vs a b).1 := by
  unfold div
  repeat' split
  all_goals first
    | exact h
    | exact num_args _ _ h
    | exact opV_args _ _ _ _ h

set_option maxHeartbeats 1600000 in
/-- Lowering never interns an argument entry: every table update goes
through `num` or `opV`, so the argument entries of the output table are
those of the input table. -/
theorem lower_args (e : Expr) : ∀ (vs : List Value) (out : List Value × (Nat × Nat)),
    ArgsOK vs → lower vs e = Except.ok out → ArgsOK out.1 := by
  induction e with
  | number v =>
      intro vs out h heq
      injection heq with h2
      subst h2
      exact num_args _ _ (num_args _ _ h)
  | name id =>
      intro vs out h heq
      by_cases hi : id = "i"
      · subst hi
        rw [show lower vs (Expr.name "i")
            = Except.ok ((num (num vs "0").1 "1").1,
              ((num vs "0").2, (num (num vs "0").1 "1").2)) from by
          simp only [lower]; rfl] at heq
        injection heq with h2
        subst h2
        exact num_args _ _ (num_args _ _ h)
      · by_cases hz : id = "z"
        · subst hz
          rw [show lower vs (Expr.name "z") = Except.ok (vs, (0, 1)) from by
            simp only [lower]; rfl] at heq
          injection heq with h2
          subst h2
          exact h
        · rw [show lower vs (Expr.name id)
              = Except.error (CompileError.undefinedVariable id) from by
            simp only [lower]; rw [if_neg hi, if_pos hz]] at heq
          exact Except.noConfusion heq
  | binop o l r ihl ihr =>
      intro vs out h heq
      cases o with
      | add =>
          simp only [lower] at heq
          cases hl : lower vs l with
          | error err => rw [hl] at heq; exact Except.noConfusion heq
          | ok outl =>
              rcases outl with ⟨vs1, a1, a2⟩
              rw [hl] at heq
              dsimp only at heq
              cases hr : lower vs1 r with
              | error err => rw [hr] at heq; exact Except.noConfusion heq
              | ok outr =>
                  rcases outr with ⟨vs2, b1, b2⟩
                  rw [hr] at heq
                  dsimp only at heq
                  injection heq with h2
                  subst h2
                  have h2nd : ArgsOK vs2 :=
                    ihr vs1 (vs2, (b1, b2)) (ihl vs (vs1, (a1, a2)) h hl) hr
                  exact add_args _ _ _ (add_args _ _ _ h2nd)
      | sub =>
          simp only [lower] at heq
          cases hl : lower vs l with
          | error err => rw [hl] at heq; exact Except.noConfusion heq
          | ok outl =>
              rcases outl with ⟨vs1, a1, a2⟩
              rw [hl] at heq
              dsimp only at heq
              cases hr : lower vs1 r with
              | error err => rw [hr] at heq; exact Except.noConfusion heq
              | ok outr =>
                  rcases outr with ⟨vs2, b1, b2⟩
                  rw [hr] at heq
                  dsimp only at heq
                  injection heq with h2
                  subst h2
                  have h2nd : ArgsOK vs2 :=
                    ihr vs1 (vs2, (b1, b2)) (ihl vs (vs1, (a1, a2)) h hl) hr
                  exact sub_args _ _ _ (sub_args _ _ _ h2nd)
      | mul =>
          simp only [lower] at heq
          cases hl : lower vs l with
          | error err => rw [hl] at heq; exact Except.noConfusion heq
          | ok outl =>
              rcases outl with ⟨vs1, a1, a2⟩
              rw [hl] at heq
              dsimp only at heq
              cases hr : lower vs1 r with
              | error err => rw [hr] at heq; exact Except.noConfusion heq
              | ok outr =>
                  rcases outr with ⟨vs2, b1, b2⟩
                  rw [hr] at heq
                  dsimp only at heq
                  injection heq with h2
                  subst h2
                  have h2nd : ArgsOK vs2 :=
                    ihr vs1 (vs2, (b1, b2)) (ihl vs (vs1, (a1, a2)) h hl) hr
                  exact add_args _ _ _ (mul_args _ _ _ (mul_args _ _ _
                    (sub_args _ _ _ (mul_args _ _ _ (mul_args _ _ _ h2nd)))))
      | div =>
          simp only [lower] at heq
          cases hl : lower vs l with
          | error err => rw [hl] at heq; exact Except.noConfusion heq
          | ok outl =>
              rcases outl with ⟨vs1, a1, a2⟩
              rw [hl] at heq
              dsimp only at heq
              cases hr : lower vs1 r with
              | error err => rw [hr] at heq; exact Except.noConfusion heq
              | ok outr =>
                  rcases outr with ⟨vs2, b1, b2⟩
                  rw [hr] at heq
                  dsimp only at heq
                  have h2nd : ArgsOK vs2 :=
                    ihr vs1 (vs2, (b1, b2)) (ihl vs (vs1, (a1, a2)) h hl) hr
                  rcases hP3 : mul vs2 b1 b1 with ⟨vs3, i3⟩
                  rw [hP3] at heq
                  dsimp only at heq
                  rcases hP4 : mul vs3 b2 b2 with ⟨vs4, i4⟩
                  rw [hP4] at heq
                  dsimp only at heq
                  rcases hP5 : add vs4 i3 i4 with ⟨vs5, i5⟩
                  rw [hP5] at heq
                  dsimp only at heq
                  rcases hP6 : mul vs5 a1 b1 with ⟨vs6, i6⟩
                  rw [hP6] at heq
                  dsimp only at heq
                  rcases hP7 : mul vs6 a2 b2 with ⟨vs7, i7⟩
                  rw [hP7] at heq
                  dsimp only at heq
                  rcases hP8 : add vs7 i6 i7 with ⟨vs8, i8⟩
                  rw [hP8] at heq
                  dsimp only at heq
                  rcases hP9 : div vs8 i8 i5 with ⟨vs9, i9⟩
                  rw [hP9] at heq
                  dsimp only at heq
                  rcases hP10 : mul vs9 a2 b1 with ⟨vs10, i10⟩
                  rw [hP10] at heq
                  dsimp only at heq
                  rcases hP11 : mul vs10 a1 b2 with ⟨vs11, i11⟩
                  rw [hP11] at heq
                  dsimp only at heq
                  rcases hP12 : sub vs11 i10 i11 with ⟨vs12, i12⟩
                  rw [hP12] at heq
                  dsimp only at heq
                  rcases hP13 : div vs12 i12 i5 with ⟨vs13, i13⟩
                  rw [hP13] at heq
                  injection heq with h2
                  subst h2
                  have n3 : ArgsOK vs3 := by
                    have := mul_args vs2 b1 b1 h2nd; rw [hP3] at this; exact this
                  have n4 : ArgsOK vs4 := by
                    have := mul_args vs3 b2 b2 n3; rw [hP4] at this; exact this
                  have n5 : ArgsOK vs5 := by
                    have := add_args vs4 i3 i4 n4; rw [hP5] at this; exact this
                  have n6 : ArgsOK vs6 := by
                    have := mul_args vs5 a1 b1 n5; rw [hP6] at this; exact this
                  have n7 : ArgsOK vs7 := by
                    have := mul_args vs6 a2 b2 n6; rw [hP7] at this; exact this
                  have n8 : ArgsOK vs8 := by
                    have := add_args vs7 i6 i7 n7; rw [hP8] at this; exact this
                  have n9 : ArgsOK vs9 := by
                    have := div_args vs8 i8 i5 n8; rw [hP9] at this; exact this
                  have n10 : ArgsOK vs10 := by
                    have := mul_args vs9 a2 b1 n9; rw [hP10] at this; exact this
                  have n11 : ArgsOK vs11 := by
                    have := mul_args vs10 a1 b2 n10; rw [hP11] at this; exact this
                  have n12 : ArgsOK vs12 := by
                    have := sub_args vs11 i10 i11 n11; rw [hP12] at this; exact this
                  have n13 : ArgsOK vs13 := by
                    have := div_args vs12 i12 i5 n12; rw [hP13] at this; exact this
                  exact n13

/-! ### Structured form of the emitted code -/

/-- Abstract syntax of the JS expressions occurring in the emitted
code: numeric literals, variable references (the two parameters and the
temporaries), and parenthesised binary operations. -/
inductive JExpr : Type
| lit : String → JExpr
| var : String → JExpr
| bin : Op → JExpr → JExpr → JExpr
deriving DecidableEq, Repr

/-- Print a structured expression exactly as `ir_to_js` builds it:
literals and variable names as themselves, binary operations
parenthesised with the operator symbol in the middle. -/
def renderJ : JExpr → String
| JExpr.lit t => t
| JExpr.var s => s
| JExpr.bin o a b => "(" ++ renderJ a ++ opStr o ++ renderJ b ++ ")"

/-- Print an assignment sequence, one `var name = expr;` line each. -/
def renderStmts : List (String × JExpr) → String
| [] => ""
| (n, e) :: rest => "var " ++ n ++ " = " ++ renderJ e ++ ";\n" ++ renderStmts rest

/-- Structured mirror of one `ir_to_js` iteration: the same decisions
as `emitStep`, with each expression kept as a tree and each emitted
`var` line kept as a name/right-hand-side pair. -/
def emitStepS (useCounts : List Nat) (st : List (String × JExpr) × Nat × List JExpr)
    (v : Value) : List (String × JExpr) × Nat × List JExpr :=
  let stmts := st.1
  let next := st.2.1
  let js := st.2.2
  let jsi :=
    match v with
    | Value.arg s => JExpr.var s
    | Value.number t => JExpr.lit t
    | Value.binop o a b =>
        JExpr.bin o (js.getD a (JExpr.lit "")) (js.getD b (JExpr.lit ""))
  if useCounts.getD js.length 0 > 1 then
    let name := "t" ++ natToStr next
    (stmts ++ [(name, jsi)], next + 1, js ++ [JExpr.var name])
  else
    (stmts, next, js ++ [jsi])

/-- Structured mirror of `ir_to_js`: the assignment sequence and the
two expressions of the return statement of the emitted function body. -/
def ir_to_js_struct (vs : List Value) (result : Nat × Nat) :
    List (String × JExpr) × (JExpr × JExpr) :=
  let useCounts := computeUseCounts vs
  let st := vs.foldl (emitStepS useCounts) ([], 0, [])
  (st.1, (st.2.2.getD result.1 (JExpr.lit ""), st.2.2.getD result.2 (JExpr.lit "")))

/-- Variable environment of the emitted function, innermost binding
first, as built by executing `var` statements in order. -/
def lookupEnv : List (String × ℚ) → String → ℚ
| [], _ => 0
| (n, q) :: rest, s => if s = n then q else lookupEnv rest s

/-- Value of an emitted expression: literals read back through
`numVal`, variables through the environment, operators through
`applyOp`. -/
def evalJ (env : List (String × ℚ)) : JExpr → ℚ
| JExpr.lit t => numVal t
| JExpr.var s => lookupEnv env s
| JExpr.bin o a b => applyOp o (evalJ env a) (evalJ env b)

/-- Execute the assignment statements in order, each binding its name
to the value of its right-hand side in the current environment. -/
def runStmts (env : List (String × ℚ)) : List (String × JExpr) → List (String × ℚ)
| [] => env
| (n, e) :: rest => runStmts ((n, evalJ env e) :: env) rest

/-- Input-output behaviour of the emitted function body at `(x, y)`:
bind the two parameters, run the `var` statements, evaluate the two
expressions of the return statement. -/
def runBody (body : List (String × JExpr) × (JExpr × JExpr)) (x y : ℚ) : ℚ × ℚ :=
  let env := runStmts [("z_re", x), ("z_im", y)] body.1
  (evalJ env body.2.1, evalJ env body.2.2)

/-- Variables referenced by an emitted expression. -/
def jvars : JExpr → List String
| JExpr.lit _ => []
| JExpr.var s => [s]
| JExpr.bin _ a b => jvars a ++ jvars b

/-! ### The emitted string is the rendering of the structured body -/

theorem getD_map {α β : Type} (f : α → β) (l : List α) (n : Nat) (d : α) :
    (l.map f).getD n (f d) = f (l.getD n d) := by
  rw [List.getD_eq_getElem?_getD, List.getD_eq_getElem?_getD, List.getElem?_map]
  cases l[n]? with
  | none => rfl
  | some a => rfl

theorem getD_append_lt {α : Type} {l1 l2 : List α} {n : Nat} (h : n < l1.length) (d : α) :
    (l1 ++ l2).getD n d = l1.getD n d := by
  rw [List.getD_eq_getElem?_getD, List.getD_eq_getElem?_getD, List.getElem?_append,
    if_pos h]

theorem getD_append_at_end {α : Type} (l1 : List α) (a : α) (d : α) :
    (l1 ++ [a]).getD l1.length d = a := by
  rw [List.getD_eq_getElem?_getD, List.getElem?_append, if_neg (lt_irrefl _)]
  simp

theorem renderStmts_snoc (l : List (String × JExpr)) (n : String) (e : JExpr) :
    renderStmts (l ++ [(n, e)])
      = renderStmts l ++ "var " ++ n ++ " = " ++ renderJ e ++ ";\n" := by
  induction l with
  | nil => simp [renderStmts]
  | cons p t ih =>
      rcases p with ⟨m, f⟩
      show "var " ++ m ++ " = " ++ renderJ f ++ ";\n" ++ renderStmts (t ++ [(n, e)]) = _
      rw [ih]
      simp [renderStmts, String.append_assoc]

/-- One `emitStep` iteration is the rendering of one `emitStepS`
iteration, componentwise. -/
theorem emitStep_render (u : List Nat) (v : Value)
    (stS : List (String × JExpr) × Nat × List JExpr) :
    emitStep u (renderStmts stS.1, stS.2.1, stS.2.2.map renderJ) v
      = (renderStmts ((emitStepS u stS v).1), (emitStepS u stS v).2.1,
          ((emitStepS u stS v).2.2).map renderJ) := by
  rcases stS with ⟨stmts, next, js⟩
  unfold emitStep emitStepS
  dsimp only
  have hjsi : (match v with
      | Value.arg s => s
      | Value.number t => t
      | Value.binop o a b =>
          "(" ++ (js.map renderJ).getD a "" ++ opStr o
            ++ (js.map renderJ).getD b "" ++ ")")
      = renderJ (match v with
      | Value.arg s => JExpr.var s
      | Value.number t => JExpr.lit t
      | Value.binop o a b =>
          JExpr.bin o (js.getD a (JExpr.lit "")) (js.getD b (JExpr.lit ""))) := by
    cases v with
    | arg s => rfl
    | number t => rfl
    | binop o a b =>
        dsimp only
        rw [show ("" : String) = renderJ (JExpr.lit "") from rfl,
          getD_map renderJ js a (JExpr.lit ""), getD_map renderJ js b (JExpr.lit "")]
        rfl
  rw [hjsi, List.length_map]
  by_cases hc : u.getD js.length 0 > 1
  · rw [if_pos hc, if_pos hc]
    dsimp only
    rw [renderStmts_snoc]
    simp [List.map_append, renderJ]
  · rw [if_neg hc, if_neg hc]
    dsimp only
    simp [List.map_append]

/-- The emission loop is the rendering of the structured emission loop. -/
theorem emit_fold_render (u : List Nat) :
    ∀ (vs : List Value) (stS : List (String × JExpr) × Nat × List JExpr),
      vs.foldl (emitStep u) (renderStmts stS.1, stS.2.1, stS.2.2.map renderJ)
        = (renderStmts ((vs.foldl (emitStepS u) stS).1),
            (vs.foldl (emitStepS u) stS).2.1,
            ((vs.foldl (emitStepS u) stS).2.2).map renderJ) := by
  intro vs
  induction vs with
  | nil => intro stS; rfl
  | cons v rest ih =>
      intro stS
      show (rest.foldl (emitStep u)
          (emitStep u (renderStmts stS.1, stS.2.1, stS.2.2.map renderJ) v)) = _
      rw [emitStep_render u v stS]
      exact ih (emitStepS u stS v)

/-- `ir_to_js` emits exactly the rendering of the structured body. -/
theorem ir_to_js_render (vs : List Value) (result : Nat × Nat) :
    ir_to_js vs result =
      renderStmts (ir_to_js_struct vs result).1 ++ "return \x7bre: "
        ++ renderJ (ir_to_js_struct vs result).2.1 ++ ", im: "
        ++ renderJ (ir_to_js_struct vs result).2.2 ++ "\x7d;\n" := by
  have h := emit_fold_render (computeUseCounts vs) vs ([], 0, [])
  dsimp only at h
  unfold ir_to_js ir_to_js_struct
  dsimp only
  rw [show (("", 0, []) : String × Nat × List String)
      = (renderStmts ([] : List (String × JExpr)), 0,
          ([] : List JExpr).map renderJ) from rfl, h]
  dsimp only
  have g1 := getD_map renderJ
    (vs.foldl (emitStepS (computeUseCounts vs)) ([], 0, [])).2.2 result.1 (JExpr.lit "")
  have g2 := getD_map renderJ
    (vs.foldl (emitStepS (computeUseCounts vs)) ([], 0, [])).2.2 result.2 (JExpr.lit "")
  rw [show renderJ (JExpr.lit "") = "" from rfl] at g1 g2
  rw [g1, g2]

/-! ### Soundness of the emitted code -/

theorem natToStr_inj {a b : Nat} (h : natToStr a = natToStr b) : a = b := by
  have ha := strToNat_natToStr a
  rw [h, strToNat_natToStr b] at ha
  exact ha.symm

theorem tempName_inj {a b : Nat} (h : "t" ++ natToStr a = "t" ++ natToStr b) :
    a = b := by
  apply natToStr_inj
  apply String.ext
  have hd := congrArg String.data h
  rw [String.data_append, String.data_append] at hd
  exact List.append_cancel_left hd

theorem tempName_ne_zre (k : Nat) : "t" ++ natToStr k ≠ "z_re" := by
  intro h
  have hd : 't' :: (natToStr k).data = 'z' :: ['_', 'r', 'e'] := by
    have := congrArg String.data h
    rwa [String.data_append] at this
  injection hd with h1 _
  exact absurd h1 (by decide)

theorem tempName_ne_zim (k : Nat) : "t" ++ natToStr k ≠ "z_im" := by
  intro h
  have hd : 't' :: (natToStr k).data = 'z' :: ['_', 'i', 'm'] := by
    have := congrArg String.data h
    rwa [String.data_append] at this
  injection hd with h1 _
  exact absurd h1 (by decide)

theorem lookupEnv_head (n : String) (q : ℚ) (env : List (String × ℚ)) :
    lookupEnv ((n, q) :: env) n = q := by
  show (if n = n then q else lookupEnv env n) = q
  rw [if_pos rfl]

theorem lookupEnv_base_zre (x y : ℚ) :
    lookupEnv [("z_re", x), ("z_im", y)] "z_re" = x := by
  show (if ("z_re" : String) = "z_re" then x else lookupEnv [("z_im", y)] "z_re") = x
  rw [if_pos rfl]

theorem lookupEnv_base_zim (x y : ℚ) :
    lookupEnv [("z_re", x), ("z_im", y)] "z_im" = y := by
  show (if ("z_im" : String) = "z_re" then x else lookupEnv [("z_im", y)] "z_im") = y
  rw [if_neg (by decide)]
  show (if ("z_im" : String) = "z_im" then y else lookupEnv [] "z_im") = y
  rw [if_pos rfl]

theorem denotArg_zre (x y : ℚ) : denotArg x y "z_re" = x := by
  unfold denotArg
  rw [if_pos rfl]

theorem denotArg_zim (x y : ℚ) : denotArg x y "z_im" = y := by
  unfold denotArg
  rw [if_neg (by decide), if_pos rfl]

theorem runStmts_append_one (l : List (String × JExpr)) (n : String) (e : JExpr) :
    ∀ env : List (String × ℚ),
      runStmts env (l ++ [(n, e)])
        = (n, evalJ (runStmts env l) e) :: runStmts env l := by
  induction l with
  | nil => intro env; rfl
  | cons p t ih =>
      intro env
      rcases p with ⟨m, f⟩
      show runStmts ((m, evalJ env f) :: env) (t ++ [(n, e)]) = _
      rw [ih ((m, evalJ env f) :: env)]
      rfl

theorem lookupEnv_runStmts (l : List (String × JExpr)) (s : String) :
    ∀ env : List (String × ℚ), (∀ p ∈ l, p.1 ≠ s) →
      lookupEnv (runStmts env l) s = lookupEnv env s := by
  induction l with
  | nil => intro env _; rfl
  | cons p t ih =>
      intro env h
      rcases p with ⟨m, f⟩
      have hm : m ≠ s := h (m, f) (List.mem_cons_self _ _)
      show lookupEnv (runStmts ((m, evalJ env f) :: env) t) s = lookupEnv env s
      rw [ih ((m, evalJ env f) :: env) (fun p hp => h p (List.mem_cons_of_mem _ hp))]
      show (if s = m then evalJ env f else lookupEnv env s) = lookupEnv env s
      rw [if_neg (fun hh => hm hh.symm)]

theorem evalJ_cons_fresh {n : String} {q : ℚ} {env : List (String × ℚ)} :
    ∀ e : JExpr, (∀ s ∈ jvars e, s ≠ n) → evalJ ((n, q) :: env) e = evalJ env e := by
  intro e
  induction e with
  | lit t => intro _; rfl
  | var s =>
      intro h
      have hs : s ≠ n := h s (List.mem_singleton.mpr rfl)
      show (if s = n then q else lookupEnv env s) = lookupEnv env s
      rw [if_neg hs]
  | bin o a b iha ihb =>
      intro h
      show applyOp o (evalJ ((n, q) :: env) a) (evalJ ((n, q) :: env) b)
          = applyOp o (evalJ env a) (evalJ env b)
      rw [iha (fun s hs => h s (List.mem_append.mpr (Or.inl hs))),
        ihb (fun s hs => h s (List.mem_append.mpr (Or.inr hs)))]

theorem emitStepS_len (u : List Nat) (st : List (String × JExpr) × Nat × List JExpr)
    (v : Value) : (emitStepS u st v).2.2.length = st.2.2.length + 1 := by
  rcases st with ⟨stmts, next, js⟩
  unfold emitStepS
  dsimp only
  by_cases hc : u.getD js.length 0 > 1
  · rw [if_pos hc]
    simp
  · rw [if_neg hc]
    simp

/-- Loop invariant of the emission pass: the temporary counter equals
the number of statements emitted so far, every statement binds a
temporary `t<k>` with `k` below the counter, and every entry produced
so far evaluates — under the environment obtained by running the
statements so far from the two bound parameters — to the denotation of
its table index, referencing only the parameters and the bound
temporaries. -/
def EmitInv (vs : List Value) (x y : ℚ)
    (st : List (String × JExpr) × Nat × List JExpr) : Prop :=
  st.2.1 = st.1.length ∧
  (∀ p ∈ st.1, ∃ k, k < st.2.1 ∧ p.1 = "t" ++ natToStr k) ∧
  ∀ j, j < st.2.2.length →
    (∀ s ∈ jvars (st.2.2.getD j (JExpr.lit "")),
        s = "z_re" ∨ s = "z_im" ∨ ∃ k, k < st.2.1 ∧ s = "t" ++ natToStr k) ∧
    evalJ (runStmts [("z_re", x), ("z_im", y)] st.1) (st.2.2.getD j (JExpr.lit ""))
      = evalIdx vs x y j

theorem emit_step_inv (u : List Nat) (x y : ℚ) (vs : List Value)
    (htopo : TopoOK vs) (hargs : ArgsOK vs)
    (st : List (String × JExpr) × Nat × List JExpr) (v : Value)
    (hv : vs.get? st.2.2.length = some v)
    (hinv : EmitInv vs x y st) : EmitInv vs x y (emitStepS u st v) := by
  rcases st with ⟨stmts, next, js⟩
  obtain ⟨hnext, hnames, hentries⟩ := hinv
  dsimp only at hnext hnames hentries hv
  have hjsi : ∀ jsi : JExpr,
      (∀ s ∈ jvars jsi,
          s = "z_re" ∨ s = "z_im" ∨ ∃ k, k < next ∧ s = "t" ++ natToStr k) →
      evalJ (runStmts [("z_re", x), ("z_im", y)] stmts) jsi
        = evalIdx vs x y js.length →
      EmitInv vs x y (if u.getD js.length 0 > 1
        then (stmts ++ [("t" ++ natToStr next, jsi)], next + 1,
              js ++ [JExpr.var ("t" ++ natToStr next)])
        else (stmts, next, js ++ [jsi])) := by
    intro jsi hvars heval
    by_cases hc : u.getD js.length 0 > 1
    · rw [if_pos hc]
      have henv : runStmts [("z_re", x), ("z_im", y)]
          (stmts ++ [("t" ++ natToStr next, jsi)])
          = ("t" ++ natToStr next,
              evalJ (runStmts [("z_re", x), ("z_im", y)] stmts) jsi)
            :: runStmts [("z_re", x), ("z_im", y)] stmts :=
        runStmts_append_one stmts _ jsi _
      refine ⟨?_, ?_, ?_⟩
      · dsimp only
        simp [List.length_append, hnext]
      · intro p hp
        dsimp only at hp ⊢
        rcases List.mem_append.mp hp with hm | hm
        · obtain ⟨k, hk, hkeq⟩ := hnames p hm
          exact ⟨k, by omega, hkeq⟩
        · rw [List.mem_singleton] at hm
          subst hm
          exact ⟨next, by omega, rfl⟩
      · intro j hj
        dsimp only at hj ⊢
        simp only [List.length_append, List.length_singleton] at hj
        by_cases hjl : j < js.length
        · rw [getD_append_lt hjl]
          obtain ⟨hv_old, he_old⟩ := hentries j hjl
          refine ⟨?_, ?_⟩
          · intro s hs
            rcases hv_old s hs with h1 | h1 | ⟨k, hk, hkeq⟩
            · exact Or.inl h1
            · exact Or.inr (Or.inl h1)
            · exact Or.inr (Or.inr ⟨k, by omega, hkeq⟩)
          · rw [henv, evalJ_cons_fresh _ ?fr]
            · exact he_old
            case fr =>
              intro s hs hcontra
              rcases hv_old s hs with h1 | h1 | ⟨k, hk, hkeq⟩
              · rw [h1] at hcontra
                exact tempName_ne_zre next hcontra.symm
              · rw [h1] at hcontra
                exact tempName_ne_zim next hcontra.symm
              · rw [hkeq] at hcontra
                exact absurd (tempName_inj hcontra) (by omega)
        · have hje : j = js.length := by omega
          subst hje
          rw [getD_append_at_end]
          refine ⟨?_, ?_⟩
          · intro s hs
            have hs' : s = "t" ++ natToStr next := List.mem_singleton.mp hs
            exact Or.inr (Or.inr ⟨next, by omega, hs'⟩)
          · rw [henv]
            show lookupEnv (("t" ++ natToStr next,
                evalJ (runStmts [("z_re", x), ("z_im", y)] stmts) jsi)
                :: runStmts [("z_re", x), ("z_im", y)] stmts)
                ("t" ++ natToStr next) = evalIdx vs x y js.length
            rw [lookupEnv_head]
            exact heval
    · rw [if_neg hc]
      refine ⟨hnext, hnames, ?_⟩
      intro j hj
      dsimp only at hj ⊢
      simp only [List.length_append, List.length_singleton] at hj
      by_cases hjl : j < js.length
      · rw [getD_append_lt hjl]
        exact hentries j hjl
      · have hje : j = js.length := by omega
        subst hje
        rw [getD_append_at_end]
        exact ⟨hvars, heval⟩
  cases v with
  | arg s =>
      have hsv : s = "z_re" ∨ s = "z_im" := hargs s (List.get?_mem hv)
      refine hjsi (JExpr.var s) ?_ ?_
      · intro s' hs'
        have h1 : s' = s := List.mem_singleton.mp hs'
        subst h1
        rcases hsv with h2 | h2
        · exact Or.inl h2
        · exact Or.inr (Or.inl h2)
      · have hne : ∀ p ∈ stmts, p.1 ≠ s := by
          intro p hp hcontra
          obtain ⟨k, _, hkeq⟩ := hnames p hp
          rw [hkeq] at hcontra
          rcases hsv with h2 | h2
          · rw [h2] at hcontra
            exact tempName_ne_zre k hcontra
          · rw [h2] at hcontra
            exact tempName_ne_zim k hcontra
        rw [evalIdx_arg x y hv]
        show lookupEnv (runStmts [("z_re", x), ("z_im", y)] stmts) s = denotArg x y s
        rw [lookupEnv_runStmts stmts s [("z_re", x), ("z_im", y)] hne]
        rcases hsv with h2 | h2
        · rw [h2, lookupEnv_base_zre, denotArg_zre]
        · rw [h2, lookupEnv_base_zim, denotArg_zim]
  | number t =>
      refine hjsi (JExpr.lit t) ?_ ?_
      · intro s' hs'
        simp [jvars] at hs'
      · show evalJ (runStmts [("z_re", x), ("z_im", y)] stmts) (JExpr.lit t)
            = evalIdx vs x y js.length
        rw [evalIdx_number x y hv]
        rfl
  | binop o a b =>
      obtain ⟨ha, hb⟩ := htopo js.length o a b hv
      obtain ⟨hva, hea⟩ := hentries a ha
      obtain ⟨hvb, heb⟩ := hentries b hb
      refine hjsi (JExpr.bin o (js.getD a (JExpr.lit "")) (js.getD b (JExpr.lit ""))) ?_ ?_
      · intro s' hs'
        rcases List.mem_append.mp hs' with hm | hm
        · exact hva s' hm
        · exact hvb s' hm
      · rw [evalIdx_binop htopo x y hv]
        show applyOp o
            (evalJ (runStmts [("z_re", x), ("z_im", y)] stmts) (js.getD a (JExpr.lit "")))
            (evalJ (runStmts [("z_re", x), ("z_im", y)] stmts) (js.getD b (JExpr.lit "")))
            = applyOp o (evalIdx vs x y a) (evalIdx vs x y b)
        rw [hea, heb]

theorem emit_loop (u : List Nat) (x y : ℚ) (vs : List Value)
    (htopo : TopoOK vs) (hargs : ArgsOK vs) :
    ∀ (rest done : List Value) (st : List (String × JExpr) × Nat × List JExpr),
      vs = done ++ rest → st.2.2.length = done.length → EmitInv vs x y st →
      EmitInv vs x y (rest.foldl (emitStepS u) st) ∧
        (rest.foldl (emitStepS u) st).2.2.length = vs.length := by
  intro rest
  induction rest with
  | nil =>
      intro done st hsplit hlen hinv
      refine ⟨hinv, ?_⟩
      show st.2.2.length = vs.length
      rw [hsplit, List.append_nil]
      exact hlen
  | cons v rest2 ih =>
      intro done st hsplit hlen hinv
      have hv : vs.get? st.2.2.length = some v := by
        rw [hsplit, hlen, List.get?_append_right (le_refl done.length)]
        simp
      have hstep := emit_step_inv u x y vs htopo hargs st v hv hinv
      have hlen2 : (emitStepS u st v).2.2.length = (done ++ [v]).length := by
        rw [emitStepS_len, hlen]
        simp
      have hsplit2 : vs = (done ++ [v]) ++ rest2 := by
        rw [hsplit]
        simp
      exact ih (done ++ [v]) (emitStepS u st v) hsplit2 hlen2 hstep

/-- The structured body emitted for a topologically ordered table whose
argument entries are the two parameters computes, at every input, the
denotations of the two result indices: running the `var` statements in
order and evaluating the return expressions yields the table semantics. -/
theorem ir_to_js_struct_sound {vs : List Value} (htopo : TopoOK vs) (hargs : ArgsOK vs)
    {re im : Nat} (hre : re < vs.length) (him : im < vs.length) (x y : ℚ) :
    runBody (ir_to_js_struct vs (re, im)) x y
      = (evalIdx vs x y re, evalIdx vs x y im) := by
  have h0 : EmitInv vs x y ([], 0, []) := by
    refine ⟨rfl, ?_, ?_⟩
    · intro p hp
      exact absurd hp (List.not_mem_nil p)
    · intro j hj
      exact absurd hj (Nat.not_lt_zero j)
  obtain ⟨hinv, hlen⟩ := emit_loop (computeUseCounts vs) x y vs htopo hargs
    vs [] ([], 0, []) (by simp) rfl h0
  obtain ⟨hre_vars, hre_eval⟩ := hinv.2.2 re (by rw [hlen]; exact hre)
  obtain ⟨him_vars, him_eval⟩ := hinv.2.2 im (by rw [hlen]; exact him)
  unfold runBody ir_to_js_struct
  dsimp only
  rw [hre_eval, him_eval]

/-! ### The claims -/

/-- C1: for every formula built only from `z`, `i`, numeric literals and
the four operators, compilation succeeds and the emitted function body
is exactly the rendering of a structured body — a sequence of `var`
statements followed by a return pair — whose execution (`runBody`: run
the statements in order, then evaluate the two return expressions)
returns at every input `(x, y)` the same real/imaginary pair as direct
complex-number evaluation of the formula with `z = x + y*i` and `i` the
imaginary unit — exactly, in the exact-rational abstraction of floating
point. -/
theorem claim1_roundtrip (e : Expr) (honly : usesOnlyZI e = true) :
    ∃ (vs : List Value) (re im : Nat),
      lower initialValues e = Except.ok (vs, (re, im)) ∧
      compileToComplexFunction e = Except.ok (ir_to_js vs (re, im)) ∧
      ir_to_js vs (re, im) =
        renderStmts (ir_to_js_struct vs (re, im)).1 ++ "return \x7bre: "
          ++ renderJ (ir_to_js_struct vs (re, im)).2.1 ++ ", im: "
          ++ renderJ (ir_to_js_struct vs (re, im)).2.2 ++ "\x7d;\n" ∧
      ∀ x y : ℚ, runBody (ir_to_js_struct vs (re, im)) x y = cEval x y e := by
  obtain ⟨vs2, r, s, heq, _, _, htopo, hr, hs, hev⟩ :=
    lower_sound e initialValues honly seeded_initial topoOK_initial
  have hargs : ArgsOK vs2 := lower_args e initialValues (vs2, (r, s)) argsOK_initial heq
  refine ⟨vs2, r, s, heq, by unfold compileToComplexFunction; rw [heq],
    ir_to_js_render vs2 (r, s), ?_⟩
  intro x y
  rw [ir_to_js_struct_sound htopo hargs hr hs x y]
  obtain ⟨h1, h2⟩ := hev x y
  rw [h1, h2]

theorem claim1_roundtrip_witness :
    usesOnlyZI (Expr.binop Op.div
      (Expr.binop Op.add (Expr.name "z") (Expr.number "1"))
      (Expr.binop Op.sub (Expr.name "z") (Expr.number "1"))) = true ∧
    ∃ (vs : List Value) (re im : Nat),
      lower initialValues (Expr.binop Op.div
        (Expr.binop Op.add (Expr.name "z") (Expr.number "1"))
        (Expr.binop Op.sub (Expr.name "z") (Expr.number "1")))
        = Except.ok (vs, (re, im)) ∧
      compileToComplexFunction (Expr.binop Op.div
        (Expr.binop Op.add (Expr.name "z") (Expr.number "1"))
        (Expr.binop Op.sub (Expr.name "z") (Expr.number "1")))
        = Except.ok (ir_to_js vs (re, im)) ∧
      ir_to_js vs (re, im) =
        renderStmts (ir_to_js_struct vs (re, im)).1 ++ "return \x7bre: "
          ++ renderJ (ir_to_js_struct vs (re, im)).2.1 ++ ", im: "
          ++ renderJ (ir_to_js_struct vs (re, im)).2.2 ++ "\x7d;\n" ∧
      ∀ x y : ℚ, runBody (ir_to_js_struct vs (re, im)) x y
          = cEval x y (Expr.binop Op.div
              (Expr.binop Op.add (Expr.name "z") (Expr.number "1"))
              (Expr.binop Op.sub (Expr.name "z") (Expr.number "1"))) :=
  ⟨by decide, claim1_roundtrip _ (by decide)⟩

/-- C2: a formula containing an identifier other than `z` and `i` fails
to compile with the undefined-variable error naming such an identifier
(the one reached first), and no function is produced; in particular
`y + 1` fails naming `y`. -/
theorem claim2_undefined_variable :
    (∀ e : Expr, usesOnlyZI e = false →
      ∃ w : String, (w == "z") = false ∧ (w == "i") = false ∧
        occursName w e = true ∧
        compileToComplexFunction e
          = Except.error (CompileError.undefinedVariable w)) ∧
    compileToComplexFunction (Expr.binop Op.add (Expr.name "y") (Expr.number "1"))
      = Except.error (CompileError.undefinedVariable "y") := by
  constructor
  · intro e hbad
    obtain ⟨w, hw⟩ := usesOnlyZI_false_bad e hbad
    obtain ⟨h1, h2, h3⟩ := firstBadName_props e hw
    refine ⟨w, h1, h2, h3, ?_⟩
    unfold compileToComplexFunction
    rw [lower_error e initialValues hw]
  · rfl

theorem claim2_undefined_variable_witness :
    usesOnlyZI (Expr.binop Op.mul (Expr.name "w") (Expr.name "z")) = false ∧
    ∃ w : String, (w == "z") = false ∧ (w == "i") = false ∧
      occursName w (Expr.binop Op.mul (Expr.name "w") (Expr.name "z")) = true ∧
      compileToComplexFunction (Expr.binop Op.mul (Expr.name "w") (Expr.name "z"))
        = Except.error (CompileError.undefinedVariable w) :=
  ⟨by decide, claim2_undefined_variable.1 _ (by decide)⟩

/-- C3 (refuting evaluation): compiling `z + z` gives a table whose
entry 0 is the `Argument` entry `z_re` with use-count 2, and the emitted
code binds it to the temporary `t0` — `ir_to_js` names a temporary for
any entry with use-count above one, `Argument` and `Constant` entries
included, contrary to the claim and to the documented example output in
the source. -/
theorem claim3_argument_gets_temporary :
    lower initialValues (Expr.binop Op.add (Expr.name "z") (Expr.name "z"))
      = Except.ok ([Value.arg "z_re", Value.arg "z_im",
          Value.binop Op.add 0 0, Value.binop Op.add 1 1], (2, 3)) ∧
    [Value.arg "z_re", Value.arg "z_im", Value.binop Op.add 0 0,
        Value.binop Op.add 1 1].get? 0 = some (Value.arg "z_re") ∧
    computeUseCounts [Value.arg "z_re", Value.arg "z_im", Value.binop Op.add 0 0,
        Value.binop Op.add 1 1] = [2, 2, 0, 0] ∧
    compileToComplexFunction (Expr.binop Op.add (Expr.name "z") (Expr.name "z"))
      = Except.ok
          "var t0 = z_re;\nvar t1 = z_im;\nreturn \x7bre: (t0+t0), im: (t1+t1)\x7d;\n" :=
  ⟨rfl, rfl, rfl, rfl⟩

/-- C4 (counterexample): for `z + z` the result index 2 has no operand
occurrences, and `computeUseCounts` gives it 0 — not the claimed
`occurrences + 1`: result indices receive no extra count. -/
theorem claim4_no_result_bump :
    lower initialValues (Expr.binop Op.add (Expr.name "z") (Expr.name "z"))
      = Except.ok ([Value.arg "z_re", Value.arg "z_im",
          Value.binop Op.add 0 0, Value.binop Op.add 1 1], (2, 3)) ∧
    operandUses [Value.arg "z_re", Value.arg "z_im", Value.binop Op.add 0 0,
        Value.binop Op.add 1 1] 2 = 0 ∧
    (computeUseCounts [Value.arg "z_re", Value.arg "z_im", Value.binop Op.add 0 0,
        Value.binop Op.add 1 1]).getD 2 0 = 0 ∧
    ¬ ((computeUseCounts [Value.arg "z_re", Value.arg "z_im", Value.binop Op.add 0 0,
        Value.binop Op.add 1 1]).getD 2 0
      = operandUses [Value.arg "z_re", Value.arg "z_im", Value.binop Op.add 0 0,
          Value.binop Op.add 1 1] 2 + 1) :=
  ⟨rfl, rfl, rfl, by decide⟩

/-- C4 (amended): on a topologically ordered table, the use-count
computed for each index equals exactly its number of appearances as an
operand of a `BinaryOp` entry; the two final result indices receive no
additional count. -/
theorem claim4_use_counts (vs : List Value) (h : TopoOK vs) (j : Nat) :
    (computeUseCounts vs).getD j 0 = operandUses vs j :=
  computeUseCounts_spec vs h j

theorem claim4_use_counts_witness :
    TopoOK [Value.arg "z_re", Value.arg "z_im", Value.binop Op.add 0 0,
        Value.binop Op.add 1 1] ∧
    (computeUseCounts [Value.arg "z_re", Value.arg "z_im", Value.binop Op.add 0 0,
        Value.binop Op.add 1 1]).getD 0 0
      = operandUses [Value.arg "z_re", Value.arg "z_im", Value.binop Op.add 0 0,
          Value.binop Op.add 1 1] 0 := by
  have htopo := topoOK_of_checkB [Value.arg "z_re", Value.arg "z_im",
    Value.binop Op.add 0 0, Value.binop Op.add 1 1] (by decide)
  exact ⟨htopo, claim4_use_counts _ htopo 0⟩

/-- C5: after lowering any accepted formula no two value-table entries
are structurally equal (in the sense of the source's `valuesEqual`);
for `(z+1)*(z+1)` the real component of `z+1` is the single entry
`(+ 0 2)` at index 4, reused by the multiplication entries at indices
5 (`4*4` for re·re), 8 (`4*1`) and 9 (`1*4`), and its imaginary
component is the single seeded entry `z_im` at index 1. -/
theorem claim5_no_duplicates :
    (∀ (e : Expr) (vs : List Value) (rs : Nat × Nat),
      lower initialValues e = Except.ok (vs, rs) →
      vs.Pairwise fun v w => valuesEqual v w = false) ∧
    lower initialValues (Expr.binop Op.mul
        (Expr.binop Op.add (Expr.name "z") (Expr.number "1"))
        (Expr.binop Op.add (Expr.name "z") (Expr.number "1")))
      = Except.ok ([Value.arg "z_re", Value.arg "z_im", Value.number "1",
          Value.number "0", Value.binop Op.add 0 2, Value.binop Op.mul 4 4,
          Value.binop Op.mul 1 1, Value.binop Op.sub 5 6, Value.binop Op.mul 4 1,
          Value.binop Op.mul 1 4, Value.binop Op.add 8 9], (7, 10)) ∧
    [Value.arg "z_re", Value.arg "z_im", Value.number "1",
        Value.number "0", Value.binop Op.add 0 2, Value.binop Op.mul 4 4,
        Value.binop Op.mul 1 1, Value.binop Op.sub 5 6, Value.binop Op.mul 4 1,
        Value.binop Op.mul 1 4, Value.binop Op.add 8 9].count
      (Value.binop Op.add 0 2) = 1 ∧
    [Value.arg "z_re", Value.arg "z_im", Value.number "1",
        Value.number "0", Value.binop Op.add 0 2, Value.binop Op.mul 4 4,
        Value.binop Op.mul 1 1, Value.binop Op.sub 5 6, Value.binop Op.mul 4 1,
        Value.binop Op.mul 1 4, Value.binop Op.add 8 9].count
      (Value.arg "z_im") = 1 := by
  refine ⟨?_, rfl, by decide, by decide⟩
  intro e vs rs heq
  have hnodup : vs.Nodup :=
    lower_nodup e initialValues (vs, rs) (by decide) heq
  exact List.Pairwise.imp
    (fun hne => Bool.eq_false_iff.mpr fun htrue => hne ((valuesEqual_iff _ _).mp htrue))
    hnodup

theorem claim5_no_duplicates_witness :
    lower initialValues (Expr.binop Op.add (Expr.name "z") (Expr.name "z"))
      = Except.ok ([Value.arg "z_re", Value.arg "z_im",
          Value.binop Op.add 0 0, Value.binop Op.add 1 1], (2, 3)) ∧
    ([Value.arg "z_re", Value.arg "z_im", Value.binop Op.add 0 0,
        Value.binop Op.add 1 1].Pairwise fun v w => valuesEqual v w = false) :=
  ⟨rfl, claim5_no_duplicates.1 (Expr.binop Op.add (Expr.name "z") (Expr.name "z")) _ (2, 3) rfl⟩

/-- C6: lowering preserves topological order of the value table — from
any seeded topologically ordered table (in particular the fresh one, and
hence at every intermediate point of a compilation), a successful
`lower` yields a table in which every `binop` entry has both operand
indices strictly below its own index, and both result indices are in
bounds, so emitting in index order defines every temporary before use. -/
theorem claim6_topological_order (e : Expr) (vs vs' : List Value) (r s : Nat)
    (hseed : Seeded vs) (htopo : TopoOK vs)
    (heq : lower vs e = Except.ok (vs', (r, s))) :
    TopoOK vs' ∧ r < vs'.length ∧ s < vs'.length := by
  have honly := lower_ok_onlyZI e vs (vs', (r, s)) heq
  obtain ⟨vs2, r2, s2, heq2, _, _, htopo2, hr2, hs2, _⟩ :=
    lower_sound e vs honly hseed htopo
  rw [heq] at heq2
  injection heq2 with h2
  injection h2 with h3 h4
  injection h4 with h5 h6
  subst h3
  subst h5
  subst h6
  exact ⟨htopo2, hr2, hs2⟩

theorem claim6_topological_order_witness :
    Seeded initialValues ∧ TopoOK initialValues ∧
    lower initialValues (Expr.binop Op.mul (Expr.name "z") (Expr.name "z"))
      = Except.ok ([Value.arg "z_re", Value.arg "z_im", Value.binop Op.mul 0 0,
          Value.binop Op.mul 1 1, Value.binop Op.sub 2 3, Value.binop Op.mul 0 1,
          Value.binop Op.mul 1 0, Value.binop Op.add 5 6], (4, 7)) ∧
    (TopoOK [Value.arg "z_re", Value.arg "z_im", Value.binop Op.mul 0 0,
        Value.binop Op.mul 1 1, Value.binop Op.sub 2 3, Value.binop Op.mul 0 1,
        Value.binop Op.mul 1 0, Value.binop Op.add 5 6] ∧
      4 < ([Value.arg "z_re", Value.arg "z_im", Value.binop Op.mul 0 0,
        Value.binop Op.mul 1 1, Value.binop Op.sub 2 3, Value.binop Op.mul 0 1,
        Value.binop Op.mul 1 0, Value.binop Op.add 5 6] : List Value).length ∧
      7 < ([Value.arg "z_re", Value.arg "z_im", Value.binop Op.mul 0 0,
        Value.binop Op.mul 1 1, Value.binop Op.sub 2 3, Value.binop Op.mul 0 1,
        Value.binop Op.mul 1 0, Value.binop Op.add 5 6] : List Value).length) :=
  ⟨seeded_initial, topoOK_initial, rfl,
    claim6_topological_order (Expr.binop Op.mul (Expr.name "z") (Expr.name "z"))
      initialValues _ 4 7 seeded_initial topoOK_initial rfl⟩

theorem isOne_false_of_not_number {vs : List Value} {i : Nat}
    (h : isNumber vs i = false) : isOne vs i = false := by
  unfold isOne
  rw [h]
  rfl

theorem isOne_false_of_isZero {vs : List Value} {b : Nat}
    (h : isZero vs b = true) : isOne vs b = false := by
  have hget := isZero_spec h
  unfold isOne isNumber numText
  rw [hget]
  rfl

/-- C7: `div` folds to a new constant only for two constant operands
with a non-zero constant divisor; with a constant-zero or non-constant
divisor no error is raised and no fold happens — the `BinaryOp` division
entry is interned, deferring any division by zero to the runtime
arithmetic of the emitted code. -/
theorem claim7_div_fold_conditions (vs : List Value) (a b : Nat) :
    ((isNumber vs b = false ∨ isZero vs b = true) →
      div vs a b = valueToIndex vs (Value.binop Op.div a b)) ∧
    ((isNumber vs a = false ∨ isNumber vs b = false ∨ isZero vs b = true) →
      div vs a b = (vs, a) ∨ div vs a b = valueToIndex vs (Value.binop Op.div a b)) := by
  constructor
  · intro hcase
    have hone : isOne vs b = false := by
      rcases hcase with hn | hz
      · exact isOne_false_of_not_number hn
      · exact isOne_false_of_isZero hz
    have hguard : ((isNumber vs a && isNumber vs b) && !isZero vs b) = false := by
      rcases hcase with hn | hz
      · simp [hn]
      · simp [hz]
    unfold div
    rw [if_neg (by simp [hone]), if_neg (by simp [hguard])]
    rfl
  · intro hcase
    by_cases hone : isOne vs b = true
    · left
      unfold div
      rw [if_pos hone]
    · right
      have hguard : ((isNumber vs a && isNumber vs b) && !isZero vs b) = false := by
        rcases hcase with hn | hn | hz
        · simp [hn]
        · simp [hn]
        · simp [hz]
      unfold div
      rw [if_neg hone, if_neg (by simp [hguard])]
      rfl

theorem claim7_div_fold_conditions_witness :
    (isNumber [Value.number "1", Value.number "0"] 1 = false ∨
      isZero [Value.number "1", Value.number "0"] 1 = true) ∧
    div [Value.number "1", Value.number "0"] 0 1
      = valueToIndex [Value.number "1", Value.number "0"] (Value.binop Op.div 0 1) :=
  ⟨Or.inr (by decide),
    (claim7_div_fold_conditions [Value.number "1", Value.number "0"] 0 1).1
      (Or.inr (by decide))⟩

/-- C8: the rules of `mul` apply in order with first match winning —
zero annihilators, then one identities, then constant folding, then an
interned multiplication — and compiling `z*1` emits code computing `z`
directly, with no multiplication in the emitted statements. -/
theorem claim8_mul_rules :
    (∀ (vs : List Value) (a b : Nat),
      (isZero vs a = true → mul vs a b = (vs, a)) ∧
      (isZero vs a = false → isZero vs b = true → mul vs a b = (vs, b)) ∧
      (isZero vs a = false → isZero vs b = false → isOne vs a = true →
        mul vs a b = (vs, b)) ∧
      (isZero vs a = false → isZero vs b = false → isOne vs a = false →
        isOne vs b = true → mul vs a b = (vs, a)) ∧
      (isZero vs a = false → isZero vs b = false → isOne vs a = false →
        isOne vs b = false → isNumber vs a = true → isNumber vs b = true →
        mul vs a b
          = num vs (jsString (numVal (numText vs a) * numVal (numText vs b)))) ∧
      (isZero vs a = false → isZero vs b = false → isOne vs a = false →
        isOne vs b = false → (isNumber vs a && isNumber vs b) = false →
        mul vs a b = valueToIndex vs (Value.binop Op.mul a b))) ∧
    compileToComplexFunction (Expr.binop Op.mul (Expr.name "z") (Expr.number "1"))
      = Except.ok "return \x7bre: z_re, im: z_im\x7d;\n" ∧
    ("return \x7bre: z_re, im: z_im\x7d;\n" : String).data.all (fun c => c ≠ '*') = true := by
  refine ⟨?_, rfl, by decide⟩
  intro vs a b
  refine ⟨?_, ?_, ?_, ?_, ?_, ?_⟩
  · intro h1
    unfold mul
    rw [if_pos h1]
  · intro h1 h2
    unfold mul
    rw [if_neg (by simp [h1]), if_pos h2]
  · intro h1 h2 h3
    unfold mul
    rw [if_neg (by simp [h1]), if_neg (by simp [h2]), if_pos h3]
  · intro h1 h2 h3 h4
    unfold mul
    rw [if_neg (by simp [h1]), if_neg (by simp [h2]), if_neg (by simp [h3]), if_pos h4]
  · intro h1 h2 h3 h4 h5 h6
    unfold mul
    rw [if_neg (by simp [h1]), if_neg (by simp [h2]), if_neg (by simp [h3]),
      if_neg (by simp [h4]), if_pos (by simp [h5, h6])]
  · intro h1 h2 h3 h4 h5
    unfold mul
    rw [if_neg (by simp [h1]), if_neg (by simp [h2]), if_neg (by simp [h3]),
      if_neg (by simp [h4]), if_neg (by simp [h5])]
    rfl

theorem claim8_mul_rules_witness :
    isZero [Value.number "0", Value.number "5"] 0 = true ∧
    mul [Value.number "0", Value.number "5"] 0 1 = ([Value.number "0", Value.number "5"], 0) :=
  ⟨by decide, (claim8_mul_rules.1 [Value.number "0", Value.number "5"] 0 1).1 (by decide)⟩

/-- C9: compiling `2*3` constant-folds through the complex lowering
(both imaginary parts are the constant zero): the real result is the
single `Constant` entry with text `6`, and the emitted code contains no
multiplication operator. -/
theorem claim9_constant_folding :
    lower initialValues (Expr.binop Op.mul (Expr.number "2") (Expr.number "3"))
      = Except.ok ([Value.arg "z_re", Value.arg "z_im", Value.number "2",
          Value.number "0", Value.number "3", Value.number "6"], (5, 3)) ∧
    [Value.arg "z_re", Value.arg "z_im", Value.number "2", Value.number "0",
        Value.number "3", Value.number "6"].get? 5 = some (Value.number "6") ∧
    compileToComplexFunction (Expr.binop Op.mul (Expr.number "2") (Expr.number "3"))
      = Except.ok "return \x7bre: 6, im: 0\x7d;\n" ∧
    ("return \x7bre: 6, im: 0\x7d;\n" : String).data.all (fun c => c ≠ '*') = true :=
  ⟨lower_two_times_three, rfl, compile_two_times_three, by decide⟩

/-- C10: two `Constant` entries intern to the same index exactly when
their textual forms are identical strings; `"1"` and `"1.0"` denote the
same number but intern at distinct indices. -/
theorem claim10_constant_texts :
    (∀ (vs : List Value) (s t : String),
      ((num (num vs s).1 t).2 = (num vs s).2 ↔ t = s)) ∧
    (num initialValues "1").2 = 2 ∧
    (num (num initialValues "1").1 "1.0").2 = 3 ∧
    (2 : Nat) ≠ 3 ∧
    numVal "1" = numVal "1.0" := by
  refine ⟨?_, rfl, rfl, by decide, by rw [numVal_one, numVal_one_point_zero]⟩
  intro vs s t
  constructor
  · intro hj
    have hi_get : (num vs s).1.get? (num vs s).2 = some (Value.number s) :=
      valueToIndex_get vs (Value.number s)
    have hj_get : (num (num vs s).1 t).1.get? (num (num vs s).1 t).2
        = some (Value.number t) := valueToIndex_get (num vs s).1 (Value.number t)
    have hlt : (num vs s).2 < (num vs s).1.length := valueToIndex_lt vs (Value.number s)
    obtain ⟨ws, hws0⟩ := valueToIndex_extends (num vs s).1 (Value.number t)
    have hws : (num (num vs s).1 t).1 = (num vs s).1 ++ ws := hws0
    have hstab : (num (num vs s).1 t).1.get? (num vs s).2
        = some (Value.number s) := by
      rw [hws, List.get?_append hlt]
      exact hi_get
    rw [hj] at hj_get
    rw [hstab] at hj_get
    injection hj_get with h2
    injection h2 with h3
    exact h3.symm
  · intro hts
    subst hts
    rcases valueToIndex_cases vs (Value.number t) with ⟨i, _, hv⟩ | ⟨hf, hv⟩
    · show (valueToIndex (valueToIndex vs (Value.number t)).1 (Value.number t)).2
        = (valueToIndex vs (Value.number t)).2
      rw [hv]
      dsimp only
      rw [hv]
    · show (valueToIndex (valueToIndex vs (Value.number t)).1 (Value.number t)).2
        = (valueToIndex vs (Value.number t)).2
      rw [hv]
      dsimp only
      unfold valueToIndex
      rw [findEqIdx_append_self hf]
